import Mathlib

/-!
Verification of the EOSIO Signing Request (ESR) library.

This development shallowly embeds the core codec and resolution logic of the
signing-request library (src/signing-request.ts, src/chain-id.ts,
src/identity-proof.ts, src/base64u.ts and the request ABI module) in Lean.
Machine integers are modelled as `Nat` with explicit `% 2^w` where the source
truncates; byte strings are `List Nat` whose entries are below 256 (the
`Uint8Array` invariant); fallible code returns `Except Err`.

External collaborators (the ABI-driven action serializer, SHA-256, signature
recovery, zlib) are modelled as explicit function parameters together with the
contracts the library assumes of them.
-/

namespace ESR

/-- Error kinds raised by the library (each corresponds to a `throw new Error`
site in the source, or to a deserialization failure of the antelope
serializer). -/
inductive Err where
  | invalidUri
  | typeError
  | unsupportedVersion
  | missingCompressor
  | decodeError
  | identityBroadcast
  | missingTapos
  | needSignature
  | invalidDescriptor
  | unknownAlias
  | needZlib
  deriving DecidableEq, Repr

instance {e a : Type} [DecidableEq e] [DecidableEq a] : DecidableEq (Except e a) :=
  fun x y =>
  match x, y with
  | .error e1, .error e2 =>
    if h : e1 = e2 then .isTrue (congrArg Except.error h)
    else .isFalse fun hh => h (Except.error.inj hh)
  | .ok v1, .ok v2 =>
    if h : v1 = v2 then .isTrue (congrArg Except.ok h)
    else .isFalse fun hh => h (Except.ok.inj hh)
  | .error _, .ok _ => .isFalse fun hh => Except.noConfusion hh
  | .ok _, .error _ => .isFalse fun hh => Except.noConfusion hh

/-! ## Primitive wire codecs

The antelope serializer writes variable-length unsigned integers (7 bits per
byte, low group first, high bit = continuation), fixed-width little-endian
integers, and length-prefixed byte strings. -/

/-- Encode a natural number as a VLQ varuint (low 7-bit group first); the
fuel argument (always at least the value) makes the loop structurally
recursive. -/
def encVaruintAux : Nat → Nat → List Nat
  | 0, n => [n]
  | fuel + 1, n => if n < 128 then [n] else (n % 128 + 128) :: encVaruintAux fuel (n / 128)

/-- Encode a natural number as a VLQ varuint (low 7-bit group first). -/
def encVaruint (n : Nat) : List Nat := encVaruintAux n n

/-- Parse a varuint from the front of a byte list. -/
def parseVaruint : List Nat → Option (Nat × List Nat)
  | [] => none
  | b :: rest =>
    if b < 128 then some (b, rest)
    else
      match parseVaruint rest with
      | some (v, r) => some (b - 128 + v * 128, r)
      | none => none

/-- Encode a natural as `w` little-endian bytes (truncating to `2^(8w)`). -/
def encUIntLE : Nat → Nat → List Nat
  | 0, _ => []
  | w + 1, n => n % 256 :: encUIntLE w (n / 256)

/-- Parse `w` little-endian bytes into a natural. -/
def parseUIntLE : Nat → List Nat → Option (Nat × List Nat)
  | 0, s => some (0, s)
  | _ + 1, [] => none
  | w + 1, b :: s =>
    match parseUIntLE w s with
    | some (v, r) => some (b + v * 256, r)
    | none => none

/-- Read exactly `k` raw bytes. -/
def readBytes : Nat → List Nat → Option (List Nat × List Nat)
  | 0, s => some ([], s)
  | _ + 1, [] => none
  | k + 1, b :: s =>
    match readBytes k s with
    | some (bs, r) => some (b :: bs, r)
    | none => none

/-- Length-prefixed byte string (antelope `bytes`). -/
def encBytes (bs : List Nat) : List Nat := encVaruint bs.length ++ bs

/-- Parse a length-prefixed byte string. -/
def parseBytes (s : List Nat) : Option (List Nat × List Nat) :=
  match parseVaruint s with
  | some (n, r) => readBytes n r
  | none => none

/-- Run a parser exactly `k` times, collecting results. -/
def parseN {α : Type} (p : List Nat → Option (α × List Nat)) :
    Nat → List Nat → Option (List α × List Nat)
  | 0, s => some ([], s)
  | k + 1, s =>
    match p s with
    | some (a, s') =>
      match parseN p k s' with
      | some (as, r) => some (a :: as, r)
      | none => none
    | none => none

/-- Length-prefixed list of encoded items (antelope array encoding). -/
def encListWith {α : Type} (f : α → List Nat) (xs : List α) : List Nat :=
  encVaruint xs.length ++ (xs.map f).flatten

/-- Parse a length-prefixed list. -/
def parseListWith {α : Type} (p : List Nat → Option (α × List Nat))
    (s : List Nat) : Option (List α × List Nat) :=
  match parseVaruint s with
  | some (n, r) => parseN p n r
  | none => none

/-- Optional value: flag byte 0 = absent, nonzero = present (antelope decodes
the flag byte truthily). -/
def encOption {α : Type} (f : α → List Nat) : Option α → List Nat
  | none => [0]
  | some x => 1 :: f x

/-- Parse an optional value. -/
def parseOption {α : Type} (p : List Nat → Option (α × List Nat))
    (s : List Nat) : Option (Option α × List Nat) :=
  match s with
  | [] => none
  | b :: rest =>
    if b = 0 then some (none, rest)
    else
      match p rest with
      | some (a, r) => some (some a, r)
      | none => none

/-! ## Base64u (URL-safe base64 variant, no padding)

Translated from src/base64u.ts. Strings are modelled as lists of UTF-16 char
codes. The decoder's lookup table is a 256-entry `Uint8Array` defaulting to 0,
filled from the 62-character base charset, with `+`/`-` mapping to 62 and
`/`/`_` mapping to 63; reads past the table (char codes ≥ 256) yield
`undefined`, which behaves as 0 in the bit arithmetic. -/

/-- The 62-character base charset `A-Za-z0-9` as char codes. -/
def b64baseCharset : List Nat :=
  (List.range 26).map (· + 65) ++ (List.range 26).map (· + 97) ++
    (List.range 10).map (· + 48)

/-- The full 64-character charset; URL-safe variant appends `-_`, the standard
one `+/`. -/
def b64charset (urlSafe : Bool) : List Nat :=
  b64baseCharset ++ (if urlSafe then [45, 95] else [43, 47])

/-- Character at index `k` of the charset (`charset[k]`). -/
def b64charAt (urlSafe : Bool) (k : Nat) : Nat := (b64charset urlSafe).getD k 0

/-- The decoder's lookup table as a function: positions of the base charset,
both alphabet variants for 62/63, and 0 everywhere else (the `Uint8Array`
default, and `undefined`-as-0 for char codes past the table). -/
def b64lookup (c : Nat) : Nat :=
  if 65 ≤ c ∧ c ≤ 90 then c - 65
  else if 97 ≤ c ∧ c ≤ 122 then c - 97 + 26
  else if 48 ≤ c ∧ c ≤ 57 then c - 48 + 52
  else if c = 43 ∨ c = 45 then 62
  else if c = 47 ∨ c = 95 then 63
  else 0

/-- Base64u encoding: bytes are consumed in chunks of three (with one- and
two-byte remainders handled as in the source); each chunk yields char codes
from the chosen charset. The `/ 2^k % 64` forms are the source's
mask-and-shift expressions. -/
def b64encode (urlSafe : Bool) : List Nat → List Nat
  | b0 :: b1 :: b2 :: rest =>
    let chunk := b0 * 65536 + b1 * 256 + b2
    b64charAt urlSafe (chunk / 262144 % 64) :: b64charAt urlSafe (chunk / 4096 % 64) ::
      b64charAt urlSafe (chunk / 64 % 64) :: b64charAt urlSafe (chunk % 64) ::
      b64encode urlSafe rest
  | [b0] => [b64charAt urlSafe (b0 / 4 % 64), b64charAt urlSafe (b0 % 4 * 16)]
  | [b0, b1] =>
    let chunk := b0 * 256 + b1
    [b64charAt urlSafe (chunk / 1024 % 64), b64charAt urlSafe (chunk / 16 % 64),
      b64charAt urlSafe (chunk % 16 * 4)]
  | [] => []

/-- Reassemble bytes from 6-bit groups, three bytes per four groups; a partial
final group behaves as if the missing chars contributed 0 (in the source,
`charCodeAt` past the end yields `NaN`, whose lookup is `undefined`, which the
bit arithmetic coerces to 0). -/
def sextetsToBytes : List Nat → List Nat
  | a :: b :: c :: d :: rest =>
    (a * 4 + b / 16) :: (b % 16 * 16 + c / 4) :: (c % 4 * 64 + d % 64) ::
      sextetsToBytes rest
  | [a] => [a * 4, 0, 0]
  | [a, b] => [a * 4 + b / 16, b % 16 * 16, 0]
  | [a, b, c] => [a * 4 + b / 16, b % 16 * 16 + c / 4, c % 4 * 64]
  | [] => []

/-- Base64u decoding: look every char code up in the table, reassemble bytes,
and keep exactly `⌊3m/4⌋` of them (the length of the `Uint8Array` the source
allocates; the loop's writes past that length are dropped). -/
def b64decode (s : List Nat) : List Nat :=
  (sextetsToBytes (s.map b64lookup)).take (3 * s.length / 4)

/-- Membership in either accepted base64 alphabet (URL-safe or standard). -/
def isB64char (c : Nat) : Bool :=
  decide (c ∈ b64charset true ∨ c ∈ b64charset false)

/-! ## Data model

Shallow embedding of the request ABI types (the `RequestDataV2` / `RequestDataV3`
module): names are 64-bit values as `Nat`, byte strings are `List Nat`. -/

/-- Placeholder name `............1` — the 64-bit value 1 (resolves to the
signer actor). -/
def PlaceholderName : Nat := 1

/-- Placeholder name `............2` — the 64-bit value 2 (resolves to the
signer permission). -/
def PlaceholderPermission : Nat := 2

/-- The 64-bit name value of the string `identity` under the base-32 name
encoding. -/
def identityName : Nat := 8238557868240928768

/-- An (actor, permission) pair; both fields are Names. -/
structure PermissionLevel where
  actor : Nat
  permission : Nat
  deriving DecidableEq, Repr

/-- The placeholder authorization `{actor: ............1, permission: ............2}`. -/
def PlaceholderAuth : PermissionLevel := ⟨PlaceholderName, PlaceholderPermission⟩

/-- A contract action with raw (already ABI-encoded) data bytes. -/
structure Action where
  account : Nat
  name : Nat
  authorization : List PermissionLevel
  data : List Nat
  deriving DecidableEq, Repr

/-- A transaction extension (type tag + raw bytes). -/
structure TransactionExtension where
  type : Nat
  data : List Nat
  deriving DecidableEq, Repr

/-- A transaction: header plus action vectors (field order matches the wire
layout). -/
structure Transaction where
  expiration : Nat
  ref_block_num : Nat
  ref_block_prefix : Nat
  max_net_usage_words : Nat
  max_cpu_usage_ms : Nat
  delay_sec : Nat
  context_free_actions : List Action
  actions : List Action
  transaction_extensions : List TransactionExtension
  deriving DecidableEq, Repr

/-- Version-2 identity body: just an optional permission. -/
structure IdentityV2 where
  permission : Option PermissionLevel
  deriving DecidableEq, Repr

/-- Version-3 identity body: scope name plus optional permission. -/
structure IdentityV3 where
  scope : Nat
  permission : Option PermissionLevel
  deriving DecidableEq, Repr

/-- Chain id variant: tag 0 = 8-bit alias, tag 1 = raw 32-byte id. -/
inductive ChainIdVariant where
  | chain_alias (a : Nat)
  | chain_id (id : List Nat)
  deriving DecidableEq, Repr

/-- Request body variant (`variant_req`): tags 0 `action`, 1 `action[]`,
2 `transaction`, 3 `identity`. -/
inductive ReqVariant (ι : Type) where
  | action (a : Action)
  | action_list (acts : List Action)
  | transaction (t : Transaction)
  | identity (i : ι)
  deriving DecidableEq, Repr

/-- An info pair: UTF-8 key bytes and raw value bytes. -/
structure InfoPair where
  key : List Nat
  value : List Nat
  deriving DecidableEq, Repr

/-- An antelope signature: one type byte (0 = K1, 1 = R1) and 65 data bytes.
(WA signatures have a variable-length layout and are outside this model.) -/
structure Signature where
  type : Nat
  data : List Nat
  deriving DecidableEq, Repr

/-- The originator signature trailer: signer name + signature. -/
structure RequestSignature where
  signer : Nat
  signature : Signature
  deriving DecidableEq, Repr

/-- The request payload, parameterised by the identity body type (`IdentityV2`
for protocol v2, `IdentityV3` for v3). -/
structure RequestData (ι : Type) where
  chain_id : ChainIdVariant
  req : ReqVariant ι
  flags : Nat
  callback : List Nat
  info : List InfoPair
  deriving DecidableEq, Repr

abbrev RequestDataV2 := RequestData IdentityV2

abbrev RequestDataV3 := RequestData IdentityV3

/-- The stored payload of a request; the constructor determines the protocol
version (the source keeps `version` and `data` as separate fields and always
pairs version 2 with `RequestDataV2` and version 3 with `RequestDataV3` via
`storageType`). -/
inductive StoredData where
  | v2 (d : RequestDataV2)
  | v3 (d : RequestDataV3)
  deriving DecidableEq, Repr

/-- Protocol version carried by the stored payload. -/
def StoredData.version : StoredData → Nat
  | .v2 _ => 2
  | .v3 _ => 3

/-- A signing request: payload plus optional originator signature. The zlib
and abi providers held by the source object are modelled as explicit function
arguments to the operations that use them. -/
structure SigningRequest where
  data : StoredData
  signature : Option RequestSignature
  deriving DecidableEq, Repr

def SigningRequest.version (r : SigningRequest) : Nat := r.data.version

/-! ## Request flags

The flag byte of the current request ABI module (the `RequestFlags` `UInt8`
subclass alongside `RequestDataV2`/`RequestDataV3`): bit 0 = broadcast, bit 1
= background. Its private `setFlag` does `value | flag` to enable and
`value & ~flag` to disable, and the getters are bit tests
(`(value & flag) !== 0`). -/

def RequestFlagsBroadcast : Nat := 1

def RequestFlagsBackground : Nat := 2

/-- Flag setter: `value |= flag` to enable, `value &= ~flag` to disable. -/
def setFlag (value flag : Nat) (enabled : Bool) : Nat :=
  if enabled then value ||| flag else value &&& (255 ^^^ flag)

/-- Flag getter: `(value & flag) !== 0`. -/
def getFlag (value flag : Nat) : Bool := value &&& flag ≠ 0

/-! ## Wire encoders and parsers -/

/-- Encode a Name: 8 little-endian bytes of the 64-bit value. -/
def encName (n : Nat) : List Nat := encUIntLE 8 n

/-- Parse a Name. -/
def parseName : List Nat → Option (Nat × List Nat) := parseUIntLE 8

/-- Encode a permission level: actor name then permission name. -/
def encPermissionLevel (p : PermissionLevel) : List Nat :=
  encName p.actor ++ encName p.permission

/-- Parse a permission level. -/
def parsePermissionLevel (s : List Nat) : Option (PermissionLevel × List Nat) :=
  match parseName s with
  | some (a, s1) =>
    match parseName s1 with
    | some (p, s2) => some (⟨a, p⟩, s2)
    | none => none
  | none => none

/-- Encode an action: account, name, authorization array, data bytes. -/
def encAction (a : Action) : List Nat :=
  encName a.account ++ encName a.name ++
    encListWith encPermissionLevel a.authorization ++ encBytes a.data

/-- Parse an action. -/
def parseAction (s : List Nat) : Option (Action × List Nat) :=
  match parseName s with
  | some (acc, s1) =>
    match parseName s1 with
    | some (nm, s2) =>
      match parseListWith parsePermissionLevel s2 with
      | some (auth, s3) =>
        match parseBytes s3 with
        | some (d, s4) => some (⟨acc, nm, auth, d⟩, s4)
        | none => none
      | none => none
    | none => none
  | none => none

/-- Encode a transaction extension. -/
def encTransactionExtension (e : TransactionExtension) : List Nat :=
  encUIntLE 2 e.type ++ encBytes e.data

/-- Parse a transaction extension. -/
def parseTransactionExtension (s : List Nat) :
    Option (TransactionExtension × List Nat) :=
  match parseUIntLE 2 s with
  | some (t, s1) =>
    match parseBytes s1 with
    | some (d, s2) => some (⟨t, d⟩, s2)
    | none => none
  | none => none

/-- Encode a transaction (header fields in wire order, then the three action /
extension vectors). -/
def encTransaction (t : Transaction) : List Nat :=
  encUIntLE 4 t.expiration ++ encUIntLE 2 t.ref_block_num ++
    encUIntLE 4 t.ref_block_prefix ++ encVaruint t.max_net_usage_words ++
    encUIntLE 1 t.max_cpu_usage_ms ++ encVaruint t.delay_sec ++
    encListWith encAction t.context_free_actions ++
    encListWith encAction t.actions ++
    encListWith encTransactionExtension t.transaction_extensions

/-- Parse a transaction. -/
def parseTransaction (s : List Nat) : Option (Transaction × List Nat) :=
  match parseUIntLE 4 s with
  | some (exp, s1) =>
    match parseUIntLE 2 s1 with
    | some (rbn, s2) =>
      match parseUIntLE 4 s2 with
      | some (rbp, s3) =>
        match parseVaruint s3 with
        | some (mnet, s4) =>
          match parseUIntLE 1 s4 with
          | some (mcpu, s5) =>
            match parseVaruint s5 with
            | some (dsec, s6) =>
              match parseListWith parseAction s6 with
              | some (cfa, s7) =>
                match parseListWith parseAction s7 with
                | some (acts, s8) =>
                  match parseListWith parseTransactionExtension s8 with
                  | some (ext, s9) =>
                    some (⟨exp, rbn, rbp, mnet, mcpu, dsec, cfa, acts, ext⟩, s9)
                  | none => none
                | none => none
              | none => none
            | none => none
          | none => none
        | none => none
      | none => none
    | none => none
  | none => none

/-- Encode a v2 identity body. -/
def encIdentityV2 (i : IdentityV2) : List Nat := encOption encPermissionLevel i.permission

/-- Parse a v2 identity body. -/
def parseIdentityV2 (s : List Nat) : Option (IdentityV2 × List Nat) :=
  match parseOption parsePermissionLevel s with
  | some (p, r) => some (⟨p⟩, r)
  | none => none

/-- Encode a v3 identity body. -/
def encIdentityV3 (i : IdentityV3) : List Nat :=
  encName i.scope ++ encOption encPermissionLevel i.permission

/-- Parse a v3 identity body. -/
def parseIdentityV3 (s : List Nat) : Option (IdentityV3 × List Nat) :=
  match parseName s with
  | some (sc, s1) =>
    match parseOption parsePermissionLevel s1 with
    | some (p, r) => some (⟨sc, p⟩, r)
    | none => none
  | none => none

/-- Encode a chain id variant: varuint tag, then u8 alias or 32 raw id bytes. -/
def encChainIdVariant : ChainIdVariant → List Nat
  | .chain_alias a => encVaruint 0 ++ encUIntLE 1 a
  | .chain_id id => encVaruint 1 ++ id

/-- Parse a chain id variant. -/
def parseChainIdVariant (s : List Nat) : Option (ChainIdVariant × List Nat) :=
  match parseVaruint s with
  | some (0, s1) =>
    match parseUIntLE 1 s1 with
    | some (a, r) => some (.chain_alias a, r)
    | none => none
  | some (1, s1) =>
    match readBytes 32 s1 with
    | some (id, r) => some (.chain_id id, r)
    | none => none
  | _ => none

/-- Encode a request body variant: varuint tag then payload. -/
def encReqVariant {ι : Type} (encI : ι → List Nat) : ReqVariant ι → List Nat
  | .action a => encVaruint 0 ++ encAction a
  | .action_list acts => encVaruint 1 ++ encListWith encAction acts
  | .transaction t => encVaruint 2 ++ encTransaction t
  | .identity i => encVaruint 3 ++ encI i

/-- Parse a request body variant. -/
def parseReqVariant {ι : Type} (parseI : List Nat → Option (ι × List Nat))
    (s : List Nat) : Option (ReqVariant ι × List Nat) :=
  match parseVaruint s with
  | some (0, s1) =>
    match parseAction s1 with
    | some (a, r) => some (.action a, r)
    | none => none
  | some (1, s1) =>
    match parseListWith parseAction s1 with
    | some (acts, r) => some (.action_list acts, r)
    | none => none
  | some (2, s1) =>
    match parseTransaction s1 with
    | some (t, r) => some (.transaction t, r)
    | none => none
  | some (3, s1) =>
    match parseI s1 with
    | some (i, r) => some (.identity i, r)
    | none => none
  | _ => none

/-- Encode an info pair: string key (length-prefixed bytes) then value bytes. -/
def encInfoPair (p : InfoPair) : List Nat := encBytes p.key ++ encBytes p.value

/-- Parse an info pair. -/
def parseInfoPair (s : List Nat) : Option (InfoPair × List Nat) :=
  match parseBytes s with
  | some (k, s1) =>
    match parseBytes s1 with
    | some (v, r) => some (⟨k, v⟩, r)
    | none => none
  | none => none

/-- Encode a request payload. -/
def encRequestData {ι : Type} (encI : ι → List Nat) (d : RequestData ι) : List Nat :=
  encChainIdVariant d.chain_id ++ encReqVariant encI d.req ++ encUIntLE 1 d.flags ++
    encBytes d.callback ++ encListWith encInfoPair d.info

/-- Parse a request payload. -/
def parseRequestData {ι : Type} (parseI : List Nat → Option (ι × List Nat))
    (s : List Nat) : Option (RequestData ι × List Nat) :=
  match parseChainIdVariant s with
  | some (cid, s1) =>
    match parseReqVariant parseI s1 with
    | some (req, s2) =>
      match parseUIntLE 1 s2 with
      | some (fl, s3) =>
        match parseBytes s3 with
        | some (cb, s4) =>
          match parseListWith parseInfoPair s4 with
          | some (info, r) => some (⟨cid, req, fl, cb, info⟩, r)
          | none => none
        | none => none
      | none => none
    | none => none
  | none => none

/-- Encode a signature: type byte then the 65 data bytes. -/
def encSignature (s : Signature) : List Nat := encUIntLE 1 s.type ++ s.data

/-- Parse a signature (type byte 0 or 1, then 65 data bytes). -/
def parseSignature (s : List Nat) : Option (Signature × List Nat) :=
  match parseUIntLE 1 s with
  | some (t, s1) =>
    if t = 0 ∨ t = 1 then
      match readBytes 65 s1 with
      | some (d, r) => some (⟨t, d⟩, r)
      | none => none
    else none
  | none => none

/-- Encode a request signature trailer. -/
def encRequestSignature (rs : RequestSignature) : List Nat :=
  encName rs.signer ++ encSignature rs.signature

/-- Parse a request signature trailer. -/
def parseRequestSignature (s : List Nat) : Option (RequestSignature × List Nat) :=
  match parseName s with
  | some (sg, s1) =>
    match parseSignature s1 with
    | some (si, r) => some (⟨sg, si⟩, r)
    | none => none
  | none => none

/-- Serialize the stored payload under the version's storage type. -/
def StoredData.enc : StoredData → List Nat
  | .v2 d => encRequestData encIdentityV2 d
  | .v3 d => encRequestData encIdentityV3 d

/-! ## Well-formedness

Value ranges guaranteed by the source's typed fields (`UInt8`/`UInt16`/
`UInt32`, 64-bit `Name`s, `Uint8Array` bytes, 32-byte checksums). -/

/-- Byte strings hold values below 256. -/
abbrev wfBytes (bs : List Nat) : Prop := ∀ b ∈ bs, b < 256

/-- Names are 64-bit values. -/
abbrev wfName (n : Nat) : Prop := n < 2 ^ 64

abbrev wfPermissionLevel (p : PermissionLevel) : Prop :=
  wfName p.actor ∧ wfName p.permission

abbrev wfAction (a : Action) : Prop :=
  wfName a.account ∧ wfName a.name ∧
    (∀ p ∈ a.authorization, wfPermissionLevel p) ∧ wfBytes a.data

abbrev wfTransactionExtension (e : TransactionExtension) : Prop :=
  e.type < 2 ^ 16 ∧ wfBytes e.data

abbrev wfTransaction (t : Transaction) : Prop :=
  t.expiration < 2 ^ 32 ∧ t.ref_block_num < 2 ^ 16 ∧ t.ref_block_prefix < 2 ^ 32 ∧
    t.max_cpu_usage_ms < 2 ^ 8 ∧ (∀ a ∈ t.context_free_actions, wfAction a) ∧
    (∀ a ∈ t.actions, wfAction a) ∧
    (∀ e ∈ t.transaction_extensions, wfTransactionExtension e)

def wfOptPermission : Option PermissionLevel → Prop
  | none => True
  | some p => wfPermissionLevel p

instance : DecidablePred wfOptPermission := fun o =>
  match o with
  | none => (inferInstance : Decidable True)
  | some p => (inferInstance : Decidable (wfPermissionLevel p))

abbrev wfIdentityV2 (i : IdentityV2) : Prop := wfOptPermission i.permission

abbrev wfIdentityV3 (i : IdentityV3) : Prop := wfName i.scope ∧ wfOptPermission i.permission

def wfChainIdVariant : ChainIdVariant → Prop
  | .chain_alias a => a < 256
  | .chain_id id => id.length = 32 ∧ wfBytes id

instance : DecidablePred wfChainIdVariant := fun c =>
  match c with
  | .chain_alias a => (inferInstance : Decidable (a < 256))
  | .chain_id id => (inferInstance : Decidable (id.length = 32 ∧ wfBytes id))

def wfReqVariant {ι : Type} (wfI : ι → Prop) : ReqVariant ι → Prop
  | .action a => wfAction a
  | .action_list acts => ∀ a ∈ acts, wfAction a
  | .transaction t => wfTransaction t
  | .identity i => wfI i

instance {ι : Type} (wfI : ι → Prop) [DecidablePred wfI] :
    DecidablePred (wfReqVariant wfI) := fun v =>
  match v with
  | .action a => (inferInstance : Decidable (wfAction a))
  | .action_list acts => (inferInstance : Decidable (∀ a ∈ acts, wfAction a))
  | .transaction t => (inferInstance : Decidable (wfTransaction t))
  | .identity i => (inferInstance : Decidable (wfI i))

abbrev wfInfoPair (p : InfoPair) : Prop := wfBytes p.key ∧ wfBytes p.value

abbrev wfRequestData {ι : Type} (wfI : ι → Prop) (d : RequestData ι) : Prop :=
  wfChainIdVariant d.chain_id ∧ wfReqVariant wfI d.req ∧ d.flags < 256 ∧
    wfBytes d.callback ∧ ∀ p ∈ d.info, wfInfoPair p

abbrev wfSignature (s : Signature) : Prop :=
  (s.type = 0 ∨ s.type = 1) ∧ s.data.length = 65 ∧ wfBytes s.data

abbrev wfRequestSignature (rs : RequestSignature) : Prop :=
  wfName rs.signer ∧ wfSignature rs.signature

def wfStoredData : StoredData → Prop
  | .v2 d => wfRequestData wfIdentityV2 d
  | .v3 d => wfRequestData wfIdentityV3 d

instance : DecidablePred wfStoredData := fun d =>
  match d with
  | .v2 d => (inferInstance : Decidable (wfRequestData wfIdentityV2 d))
  | .v3 d => (inferInstance : Decidable (wfRequestData wfIdentityV3 d))

def wfOptRequestSignature : Option RequestSignature → Prop
  | none => True
  | some rs => wfRequestSignature rs

instance : DecidablePred wfOptRequestSignature := fun o =>
  match o with
  | none => (inferInstance : Decidable True)
  | some rs => (inferInstance : Decidable (wfRequestSignature rs))

/-- A request is well-formed when its payload and signature are, and the
constructor invariant holds: an identity request never carries the broadcast
flag (the constructor throws otherwise). -/
def SigningRequest.isIdentityData : StoredData → Bool
  | .v2 d => match d.req with | .identity _ => true | _ => false
  | .v3 d => match d.req with | .identity _ => true | _ => false

def StoredData.flags : StoredData → Nat
  | .v2 d => d.flags
  | .v3 d => d.flags

abbrev wfSigningRequest (r : SigningRequest) : Prop :=
  wfStoredData r.data ∧ wfOptRequestSignature r.signature ∧
    ¬(getFlag r.data.flags RequestFlagsBroadcast = true ∧
      SigningRequest.isIdentityData r.data = true)

/-! ## Frame encoding and decoding (SigningRequest.encode / fromData / from)

The zlib provider is an external collaborator; `ZlibOk` states the contract
the library assumes of it (raw inflate inverts raw deflate, and both produce
byte arrays). -/

/-- A zlib implementation (raw DEFLATE / INFLATE, no wrapper headers). -/
structure ZlibProvider where
  deflateRaw : List Nat → List Nat
  inflateRaw : List Nat → List Nat

/-- Contract assumed of an optional compressor. -/
def ZlibOk : Option ZlibProvider → Prop
  | none => True
  | some z => ∀ x, wfBytes x → z.inflateRaw (z.deflateRaw x) = x ∧ wfBytes (z.deflateRaw x)

/-- Broadcast-flag accessor of the stored payload (`data.flags.broadcast`). -/
def StoredData.broadcastFlag (d : StoredData) : Bool :=
  getFlag d.flags RequestFlagsBroadcast

/-- Callback string of the stored payload. -/
def StoredData.callback : StoredData → List Nat
  | .v2 d => d.callback
  | .v3 d => d.callback

/-- Replace the flag byte of the stored payload. -/
def StoredData.setFlags : StoredData → Nat → StoredData
  | .v2 d, f => .v2 {d with flags := f}
  | .v3 d, f => .v3 {d with flags := f}

/-- The `SigningRequest` constructor: rejects an identity request whose
broadcast flag is set, otherwise stores the fields. -/
def mkSigningRequest (data : StoredData) (signature : Option RequestSignature) :
    Except Err SigningRequest :=
  if data.broadcastFlag = true ∧ SigningRequest.isIdentityData data = true then
    .error .identityBroadcast
  else .ok ⟨data, signature⟩

/-- Whether the request is an identity request (`req.variantName === 'identity'`). -/
def SigningRequest.isIdentity (r : SigningRequest) : Bool :=
  SigningRequest.isIdentityData r.data

/-- Whether the request should be broadcast by the signer: always false for
identity requests, otherwise the broadcast flag. -/
def SigningRequest.shouldBroadcast (r : SigningRequest) : Bool :=
  if r.isIdentity then false else r.data.broadcastFlag

/-- Serialized payload without header or signature (`getData`). -/
def SigningRequest.getData (r : SigningRequest) : List Nat := r.data.enc

/-- Serialized signature trailer, empty when unsigned (`getSignatureData`). -/
def SigningRequest.getSignatureData (r : SigningRequest) : List Nat :=
  match r.signature with
  | none => []
  | some s => encRequestSignature s

/-- Set the broadcast flag, mutating (`setBroadcast`); no identity check here. -/
def SigningRequest.setBroadcast (r : SigningRequest) (broadcast : Bool) : SigningRequest :=
  ⟨r.data.setFlags (setFlag r.data.flags RequestFlagsBroadcast broadcast), r.signature⟩

/-- Decode a binary frame (`SigningRequest.fromData`): header byte = version
(low 7 bits) plus compressed bit; then the payload under the version's storage
type; then, if bytes remain, an originator signature (further trailing bytes
are ignored by the stream decoder). An empty input reads header 0 (JS
`undefined` coerces to 0 under `&`) and fails the version check. -/
def SigningRequest.fromData (zlib : Option ZlibProvider) (bytes : List Nat) :
    Except Err SigningRequest :=
  let header := bytes.headD 0
  let version := header % 128
  if version = 2 ∨ version = 3 then
    let payloadE : Except Err (List Nat) :=
      if 128 ≤ header then
        match zlib with
        | none => .error .missingCompressor
        | some z => .ok (z.inflateRaw (bytes.drop 1))
      else .ok (bytes.drop 1)
    match payloadE with
    | .error e => .error e
    | .ok p =>
      let parsed : Option (StoredData × List Nat) :=
        if version = 2 then
          (parseRequestData parseIdentityV2 p).map fun q => (StoredData.v2 q.1, q.2)
        else
          (parseRequestData parseIdentityV3 p).map fun q => (StoredData.v3 q.1, q.2)
      match parsed with
      | none => .error .decodeError
      | some (d, rest) =>
        match rest with
        | [] => mkSigningRequest d none
        | _ :: _ =>
          match parseRequestSignature rest with
          | some (sig, _) => mkSigningRequest d (some sig)
          | none => .error .decodeError
  else .error .unsupportedVersion

/-- Encode the frame bytes (`encode` up to the base64/scheme step): payload
plus signature trailer, deflated only when a compressor is present, compression
was requested (or defaulted on), and the result is strictly smaller; the top
header bit records that choice. -/
def SigningRequest.encodeBytes (r : SigningRequest) (zlib : Option ZlibProvider)
    (compress : Option Bool) : Except Err (List Nat) :=
  let shouldCompress := compress.getD zlib.isSome
  match zlib, shouldCompress with
  | none, true => .error .needZlib
  | none, false => .ok (r.version :: (r.getData ++ r.getSignatureData))
  | some _, false => .ok (r.version :: (r.getData ++ r.getSignatureData))
  | some z, true =>
    let array := r.getData ++ r.getSignatureData
    let deflated := z.deflateRaw array
    if array.length > deflated.length then .ok ((r.version ||| 128) :: deflated)
    else .ok (r.version :: array)

/-- Char codes of the scheme prefix `esr:`. -/
def schemeEsr : List Nat := [101, 115, 114, 58]

/-- Char codes of the scheme prefix `web+esr:`. -/
def schemeWebEsr : List Nat := [119, 101, 98, 43, 101, 115, 114, 58]

/-- Encode to a URI string (`encode`): scheme (plus `//` unless `slashes` is
explicitly false) followed by the URL-safe base64 of the frame bytes. -/
def SigningRequest.encodeUri (r : SigningRequest) (zlib : Option ZlibProvider)
    (compress slashes : Option Bool) (scheme : List Nat) : Except Err (List Nat) :=
  match r.encodeBytes zlib compress with
  | .error e => .error e
  | .ok out =>
    let scheme' := if slashes ≠ some false then scheme ++ [47, 47] else scheme
    .ok (scheme' ++ b64encode true out)

/-- The `[, path] = uri.split(':')` step: the segment strictly between the
first colon and the next one (or the end); `none` when the string has no colon
at all (JS then raises a TypeError on `path.startsWith`). -/
def afterFirstColon : List Nat → Option (List Nat)
  | [] => none
  | c :: rest =>
    if c = 58 then some (rest.takeWhile fun x => x != 58) else afterFirstColon rest

/-- Decode a URI string (`SigningRequest.from`): take the text after the first
colon, strip a leading `//`, base64u-decode, and decode the frame. Note that
the scheme prefix itself is never inspected. -/
def SigningRequest.fromUri (zlib : Option ZlibProvider) (uri : List Nat) :
    Except Err SigningRequest :=
  match afterFirstColon uri with
  | none => .error .typeError
  | some path =>
    let path' := match path with
      | 47 :: 47 :: t => t
      | _ => path
    SigningRequest.fromData zlib (b64decode path')

/-! ## Raw actions and transaction (getRawActions / getRawTransaction) -/

/-- The actions stored in the request, with the identity variants synthesising
the identity action: account = zero Name, name = `identity`, authorization =
the requested permission or the placeholder auth, data = the encoded identity
body (the v2 placeholder case uses the hex constant
`0101000000000000000200000000000000` from the source). -/
def SigningRequest.getRawActions (r : SigningRequest) : List Action :=
  match r.data with
  | .v2 d =>
    match d.req with
    | .action a => [a]
    | .action_list acts => acts
    | .transaction t => t.actions
    | .identity id =>
      match id.permission with
      | some p => [⟨0, identityName, [p], encIdentityV2 ⟨some p⟩⟩]
      | none =>
        [⟨0, identityName, [PlaceholderAuth],
          [1, 1, 0, 0, 0, 0, 0, 0, 0, 2, 0, 0, 0, 0, 0, 0, 0]⟩]
  | .v3 d =>
    match d.req with
    | .action a => [a]
    | .action_list acts => acts
    | .transaction t => t.actions
    | .identity id =>
      let permission := id.permission.getD PlaceholderAuth
      [⟨0, identityName, [permission], encIdentityV3 ⟨id.scope, some permission⟩⟩]

/-- The unresolved transaction: the stored transaction for the `transaction`
variant, otherwise a null-header transaction holding the raw actions. -/
def SigningRequest.getRawTransaction (r : SigningRequest) : Transaction :=
  match r.data with
  | .v2 ⟨_, .transaction t, _, _, _⟩ => t
  | .v3 ⟨_, .transaction t, _, _, _⟩ => t
  | _ => ⟨0, 0, 0, 0, 0, 0, [], r.getRawActions, []⟩

/-- Whether the transaction has TaPoS values (not the null header). -/
def hasTapos (tx : Transaction) : Bool :=
  !(tx.expiration == 0 && tx.ref_block_num == 0 && tx.ref_block_prefix == 0)

/-- Derived expiration: `TimePointSec.from(timestamp ?? now) + (expire_seconds
?? 60)` with 32-bit wrap-around (`UInt32` addition); `now` is the wall clock
the source reads via `new Date()`. -/
def expirationTime (now : Nat) (timestamp expireSeconds : Option Nat) : Nat :=
  (timestamp.getD now + expireSeconds.getD 60) % 2 ^ 32

/-- Context used to resolve a transaction (all fields optional, as in the
`TransactionContext` interface). -/
structure TransactionContext where
  timestamp : Option Nat
  expire_seconds : Option Nat
  block_num : Option Nat
  ref_block_num : Option Nat
  ref_block_prefix : Option Nat
  expiration : Option Nat
  chainId : Option ChainIdVariant
  deriving DecidableEq, Repr

/-- An empty transaction context. -/
def TransactionContext.empty : TransactionContext :=
  ⟨none, none, none, none, none, none, none⟩

/-- Header fill-in of `resolveTransaction` (lines 801-839): for a non-identity
request with a null header, take explicit TaPoS from the context when
`expiration`, `ref_block_num` and `ref_block_prefix` are all present
(`ref_block_num` through `UInt16.from(…, 'truncate')`), else derive them from
`block_num` / `ref_block_prefix` / `timestamp`, else fail; for identity
requests of version > 2 only the expiration is set. The subsequent action
decode-and-substitute step runs through the external ABI serializer and is
modelled separately by `resolveActions` on decoded values. -/
def SigningRequest.resolveTransaction (r : SigningRequest) (ctx : TransactionContext)
    (now : Nat) : Except Err Transaction :=
  let tx := r.getRawTransaction
  if r.isIdentity = false ∧ hasTapos tx = false then
    if ctx.expiration.isSome ∧ ctx.ref_block_num.isSome ∧ ctx.ref_block_prefix.isSome then
      .ok {tx with
        expiration := ctx.expiration.getD 0,
        ref_block_num := ctx.ref_block_num.getD 0 % 2 ^ 16,
        ref_block_prefix := ctx.ref_block_prefix.getD 0}
    else if ctx.block_num.isSome ∧ ctx.ref_block_prefix.isSome ∧ ctx.timestamp.isSome then
      .ok {tx with
        expiration := expirationTime now ctx.timestamp ctx.expire_seconds,
        ref_block_num := ctx.block_num.getD 0 % 2 ^ 16,
        ref_block_prefix := ctx.ref_block_prefix.getD 0}
    else .error .missingTapos
  else
    if r.isIdentity = true ∧ 2 < r.version then
      .ok {tx with
        expiration :=
          match ctx.expiration with
          | some e => e
          | none => expirationTime now ctx.timestamp ctx.expire_seconds}
    else .ok tx

/-! ## Decoded action values and placeholder resolution (resolveActions)

The ABI-driven decode of raw action data (`rawAction.decodeData(abi)`) is the
external serializer; the decoded result is a tree of typed values. The
`resolve` closure of `resolveActions` walks that tree: `Name` values equal to
a placeholder are substituted, arrays and plain objects are visited
recursively, all other leaves pass through. -/

mutual

inductive AbiValue where
  | name (n : Nat)
  | str (s : List Nat)
  | num (i : Int)
  | boolean (b : Bool)
  | arr (xs : AbiList)
  | record (fs : AbiFields)

inductive AbiList where
  | nil
  | cons (x : AbiValue) (xs : AbiList)

inductive AbiFields where
  | nil
  | cons (key : List Nat) (x : AbiValue) (fs : AbiFields)

end

mutual

/-- The `resolve` closure over a decoded value (lines 757-776). -/
def resolveValue (sg : PermissionLevel) : AbiValue → AbiValue
  | .name n =>
    if n = PlaceholderName then .name sg.actor
    else if n = PlaceholderPermission then .name sg.permission
    else .name n
  | .str s => .str s
  | .num i => .num i
  | .boolean b => .boolean b
  | .arr xs => .arr (resolveValueList sg xs)
  | .record fs => .record (resolveValueFields sg fs)

def resolveValueList (sg : PermissionLevel) : AbiList → AbiList
  | .nil => .nil
  | .cons x xs => .cons (resolveValue sg x) (resolveValueList sg xs)

def resolveValueFields (sg : PermissionLevel) : AbiFields → AbiFields
  | .nil => .nil
  | .cons k x fs => .cons k (resolveValue sg x) (resolveValueFields sg fs)

end

mutual

/-- Whether a placeholder name occurs anywhere in a decoded value. -/
def hasPlaceholder : AbiValue → Bool
  | .name n => n == PlaceholderName || n == PlaceholderPermission
  | .str _ => false
  | .num _ => false
  | .boolean _ => false
  | .arr xs => hasPlaceholderList xs
  | .record fs => hasPlaceholderFields fs

def hasPlaceholderList : AbiList → Bool
  | .nil => false
  | .cons x xs => hasPlaceholder x || hasPlaceholderList xs

def hasPlaceholderFields : AbiFields → Bool
  | .nil => false
  | .cons _ x fs => hasPlaceholder x || hasPlaceholderFields fs

end

/-- The authorization substitution of `resolveActions` (lines 778-791):
placeholder-1 in the actor slot becomes the signer actor; placeholder-2 in the
permission slot becomes the signer permission; then (backwards compatibility)
a placeholder-1 in the permission slot also becomes the signer permission. -/
def resolveAuth (sg : PermissionLevel) (auth : PermissionLevel) : PermissionLevel :=
  let actor := if auth.actor = PlaceholderName then sg.actor else auth.actor
  let permission :=
    if auth.permission = PlaceholderPermission then sg.permission else auth.permission
  let permission := if permission = PlaceholderName then sg.permission else permission
  ⟨actor, permission⟩

/-- An action whose data has been decoded to a value tree. -/
structure ResolvedAction where
  account : Nat
  name : Nat
  authorization : List PermissionLevel
  data : AbiValue

/-- The substitution phase of `resolveActions` over decoded actions: with a
signer, substitute placeholders in the decoded data and in the
authorizations; without one, leave the actions untouched. -/
def resolveActions (signer : Option PermissionLevel) (acts : List ResolvedAction) :
    List ResolvedAction :=
  acts.map fun a =>
    match signer with
    | none => a
    | some sg =>
      ⟨a.account, a.name, a.authorization.map (resolveAuth sg), resolveValue sg a.data⟩

/-! ## Chain ids (chain-id.ts) -/

/-- The static alias table (`ChainIdLookup`), raw ids as byte lists. -/
def ChainIdLookup : List (Nat × List Nat) := [
  (1, [172, 163, 118, 242, 6, 184, 252, 37, 166, 237, 68, 219, 220, 102, 84, 124, 54, 198,
       195, 62, 58, 17, 159, 251, 234, 239, 148, 54, 66, 240, 233, 6]),
  (2, [70, 103, 178, 5, 198, 131, 142, 247, 15, 247, 152, 143, 110, 130, 87, 232, 190, 14,
       18, 132, 162, 245, 150, 153, 5, 74, 1, 143, 116, 59, 29, 17]),
  (3, [231, 10, 170, 184, 153, 126, 29, 252, 229, 143, 191, 172, 128, 203, 187, 143, 236,
       236, 123, 153, 207, 152, 42, 148, 68, 39, 60, 188, 100, 196, 20, 115]),
  (4, [95, 255, 29, 174, 141, 200, 226, 252, 77, 91, 35, 178, 199, 102, 92, 151, 249, 233,
       216, 237, 242, 182, 72, 90, 134, 186, 49, 28, 37, 99, 145, 145]),
  (5, [115, 100, 124, 222, 18, 0, 145, 224, 164, 184, 91, 206, 210, 243, 207, 219, 48, 65,
       226, 102, 203, 190, 149, 206, 229, 155, 115, 35, 90, 27, 59, 111]),
  (6, [213, 163, 209, 143, 187, 60, 8, 78, 59, 31, 63, 169, 140, 33, 1, 75, 95, 61, 181,
       54, 204, 21, 208, 143, 159, 100, 121, 81, 124, 106, 61, 134]),
  (7, [207, 230, 72, 106, 131, 186, 212, 150, 47, 35, 45, 72, 0, 59, 24, 36, 171, 86, 101,
       195, 103, 120, 20, 16, 52, 215, 94, 87, 185, 86, 228, 34]),
  (8, [176, 66, 2, 85, 65, 226, 90, 71, 43, 255, 222, 45, 98, 237, 212, 87, 183, 231, 12,
       238, 148, 52, 18, 177, 234, 15, 4, 79, 136, 89, 22, 100]),
  (9, [185, 18, 209, 154, 106, 189, 43, 27, 5, 97, 26, 229, 190, 71, 51, 85, 214, 77, 149,
       174, 255, 12, 9, 190, 220, 140, 22, 108, 214, 70, 143, 228]),
  (10, [16, 100, 72, 123, 60, 209, 168, 151, 206, 3, 174, 91, 106, 134, 86, 81, 116, 126,
        46, 21, 32, 144, 249, 156, 29, 25, 212, 78, 1, 174, 165, 164]),
  (11, [56, 77, 168, 136, 17, 32, 39, 240, 50, 24, 80, 161, 105, 247, 55, 195, 62, 83, 179,
        136, 170, 212, 139, 90, 218, 206, 75, 171, 151, 244, 55, 224]),
  (12, [33, 220, 174, 66, 192, 24, 34, 0, 233, 63, 149, 74, 7, 64, 17, 249, 4, 138, 118,
        36, 198, 254, 129, 211, 201, 84, 26, 97, 74, 136, 189, 28])]

/-- Input accepted by `ChainId.from`: a numeric alias or a raw 32-byte id. -/
inductive ChainIdInput where
  | byAlias (a : Nat)
  | byId (id : List Nat)
  deriving DecidableEq, Repr

/-- Resolve an input to a raw chain id; an alias absent from the table fails
(`Unknown chain id alias`). -/
def ChainId.fromInput : ChainIdInput → Except Err (List Nat)
  | .byAlias a =>
    match ChainIdLookup.find? fun row => row.1 == a with
    | some row => .ok row.2
    | none => .error .unknownAlias
  | .byId id => .ok id

/-- The alias of a raw id, 0 (UNKNOWN) when it is not in the table
(`ChainId.chainName`). -/
def chainName (id : List Nat) : Nat :=
  match ChainIdLookup.find? fun row => row.2 == id with
  | some row => row.1
  | none => 0

/-- Prefer the compact alias form when the id is a known alias
(`ChainId.chainVariant`). -/
def chainVariant (id : List Nat) : ChainIdVariant :=
  let name := chainName id
  if name ≠ 0 then .chain_alias name else .chain_id id

/-! ## Builder (createSync)

Actions are modelled with raw data bytes; an action whose data is already
bytes passes through `encodeAction` unchanged, while the ABI-encoding path for
object data runs through the external serializer and is outside this model. -/

/-- Chain id argument: absent, explicitly `null` (multi-chain), or a value. -/
inductive ChainIdArg where
  | unset
  | nullChain
  | value (c : ChainIdInput)
  deriving DecidableEq, Repr

/-- Identity descriptor (`args.identity`). -/
structure IdentityArgs where
  scope : Option Nat
  permission : Option PermissionLevel
  deriving DecidableEq, Repr

/-- Callback argument: plain URL string, or a (url, background) record. -/
inductive CallbackArg where
  | str (url : List Nat)
  | obj (url : List Nat) (background : Bool)
  deriving DecidableEq, Repr

/-- A partial transaction (`Partial<AnyTransaction>`). -/
structure PartialTransaction where
  expiration : Option Nat
  ref_block_num : Option Nat
  ref_block_prefix : Option Nat
  max_net_usage_words : Option Nat
  max_cpu_usage_ms : Option Nat
  delay_sec : Option Nat
  context_free_actions : Option (List Action)
  actions : Option (List Action)
  transaction_extensions : Option (List TransactionExtension)
  deriving DecidableEq, Repr

/-- The header/vector defaulting `createSync` applies to a partial
transaction (lines 380-414). -/
def applyTxDefaults (p : PartialTransaction) : Transaction :=
  ⟨p.expiration.getD 0, p.ref_block_num.getD 0, p.ref_block_prefix.getD 0,
    p.max_net_usage_words.getD 0, p.max_cpu_usage_ms.getD 0, p.delay_sec.getD 0,
    p.context_free_actions.getD [], p.actions.getD [], p.transaction_extensions.getD []⟩

/-- Builder descriptor (`SigningRequestCreateArguments`); `info` is the
bytes-valued form (string and typed values pass through the external encoder
first). -/
structure CreateArgs where
  action : Option Action
  actions : Option (List Action)
  transaction : Option PartialTransaction
  identity : Option IdentityArgs
  chainId : ChainIdArg
  chainIds : Option (List ChainIdInput)
  broadcast : Option Bool
  callback : Option CallbackArg
  info : List (List Nat × List Nat)
  deriving DecidableEq, Repr

/-- A request body paired with the storage version it was built for. -/
inductive ReqSel where
  | v2 (q : ReqVariant IdentityV2)
  | v3 (q : ReqVariant IdentityV3)
  deriving DecidableEq, Repr

def selAction (ver : Nat) (a : Action) : ReqSel :=
  if ver = 2 then .v2 (.action a) else .v3 (.action a)

def selActions (ver : Nat) (acts : List Action) : ReqSel :=
  if ver = 2 then .v2 (.action_list acts) else .v3 (.action_list acts)

def selTransaction (ver : Nat) (t : Transaction) : ReqSel :=
  if ver = 2 then .v2 (.transaction t) else .v3 (.transaction t)

/-- Whether the selected body is the identity variant (`data.req[0] ===
'identity'`). -/
def ReqSel.isIdentity : ReqSel → Bool
  | .v2 (.identity _) => true
  | .v3 (.identity _) => true
  | _ => false

/-- Request-body selection of `createSync` (lines 357-420): version 2 unless
`chainId === null` or an identity scope is given; exactly one of
action/actions/transaction/identity (identity checked first); a single-element
`actions` collapses to `action`. Building a v3 identity body without a scope
fails in the serializer (`Name.from(undefined)`), modelled as a decode
error. -/
def createSyncReq (args : CreateArgs) : Except Err ReqSel :=
  let ver0 : Nat := if args.chainId = ChainIdArg.nullChain then 3 else 2
  match args.identity, args.action, args.actions, args.transaction with
  | some id, _, _, _ =>
    let ver := if id.scope.isSome then 3 else ver0
    if ver = 2 then .ok (.v2 (.identity ⟨id.permission⟩))
    else
      match id.scope with
      | some sc => .ok (.v3 (.identity ⟨sc, id.permission⟩))
      | none => .error .decodeError
  | none, some a, none, none => .ok (selAction ver0 a)
  | none, none, some acts, none =>
    match acts with
    | [a] => .ok (selAction ver0 a)
    | _ => .ok (selActions ver0 acts)
  | none, none, none, some ptx => .ok (selTransaction ver0 (applyTxDefaults ptx))
  | none, none, none, none => .error .invalidDescriptor
  | _, _, _, _ => .error .invalidDescriptor

/-- Chain-id selection of `createSync` (lines 422-427): alias 0 for a `null`
chain id, otherwise `ChainId.from(args.chainId || EOS).chainVariant`. -/
def createSyncChain (args : CreateArgs) : Except Err ChainIdVariant :=
  match args.chainId with
  | .nullChain => .ok (.chain_alias 0)
  | .unset =>
    match ChainId.fromInput (.byAlias 1) with
    | .ok id => .ok (chainVariant id)
    | .error e => .error e
  | .value c =>
    match ChainId.fromInput c with
    | .ok id => .ok (chainVariant id)
    | .error e => .error e

/-- Char codes of the info key `chain_ids`. -/
def chainIdsKey : List Nat := [99, 104, 97, 105, 110, 95, 105, 100, 115]

def mapChainVariants : List ChainIdInput → Except Err (List ChainIdVariant)
  | [] => .ok []
  | c :: rest =>
    match ChainId.fromInput c with
    | .error e => .error e
    | .ok id =>
      match mapChainVariants rest with
      | .ok vs => .ok (chainVariant id :: vs)
      | .error e => .error e

/-- The `chain_ids` info entry (lines 458-464): only when `chainIds` is given
and `chainId` is `null`. -/
def createSyncExtraInfo (args : CreateArgs) : Except Err (List InfoPair) :=
  match args.chainIds, args.chainId with
  | some ids, .nullChain =>
    match mapChainVariants ids with
    | .ok vs => .ok [⟨chainIdsKey, encListWith encChainIdVariant vs⟩]
    | .error e => .error e
  | _, _ => .ok []

/-- Synchronously create a signing request (`createSync`): select the body,
the chain id, the flags (broadcast defaults to true except for identity
bodies; background comes from an object callback), the callback string, and
the info pairs, then invoke the constructor (which enforces the
identity/broadcast invariant). Request signing via a signature provider runs
through external crypto and is not modelled. -/
def createSync (args : CreateArgs) : Except Err SigningRequest :=
  match createSyncReq args with
  | .error e => .error e
  | .ok sel =>
    match createSyncChain args with
    | .error e => .error e
    | .ok cid =>
      let bcast := args.broadcast.getD (!sel.isIdentity)
      let flags0 := setFlag 0 RequestFlagsBroadcast bcast
      let cbFlags : List Nat × Nat :=
        match args.callback with
        | none => ([], flags0)
        | some (.str url) => (url, flags0)
        | some (.obj url bg) => (url, setFlag flags0 RequestFlagsBackground bg)
      match createSyncExtraInfo args with
      | .error e => .error e
      | .ok extra =>
        let info := args.info.map (fun kv => InfoPair.mk kv.1 kv.2) ++ extra
        let data : StoredData :=
          match sel with
          | .v2 q => .v2 ⟨cid, q, cbFlags.2, cbFlags.1, info⟩
          | .v3 q => .v3 ⟨cid, q, cbFlags.2, cbFlags.1, info⟩
        mkSigningRequest data none

/-! ## Resolved requests and callback resolution -/

/-- Decimal rendering of a natural (`String(...)` on a numeric field). -/
def natToDec (n : Nat) : List Nat := (Nat.toDigits 10 n).map Char.toNat

/-- Lowercase hex digit. -/
def hexDigit (k : Nat) : Nat := if k < 10 then 48 + k else 87 + k

/-- Lowercase hex rendering of a byte string (chain ids, transaction ids). -/
def bytesToHex (bs : List Nat) : List Nat :=
  (bs.map fun b => [hexDigit (b / 16), hexDigit (b % 16)]).flatten

/-- External string renderings performed by the antelope value types
(`String(sig)`, `String(expiration)`, `String(name)`) and the transaction id
(SHA-256 of the serialized transaction, external crypto). -/
structure CallbackEnv where
  renderSig : Signature → List Nat
  renderTime : Nat → List Nat
  renderName : Nat → List Nat
  renderTxId : Transaction → List Nat

/-- The callback payload; every field is its rendered string form, as in the
source's `CallbackPayload` (which is all strings). -/
structure CallbackPayload where
  sig : List Nat
  tx : List Nat
  rbn : List Nat
  rid : List Nat
  ex : List Nat
  req : List Nat
  sa : List Nat
  sp : List Nat
  cid : List Nat
  extraSigs : List (List Nat)
  bn : Option (List Nat)

/-- A resolved signing request; the decoded-transaction twin is modelled at
the `AbiValue` level by `resolveActions`. -/
structure ResolvedSigningRequest where
  request : SigningRequest
  signer : PermissionLevel
  transaction : Transaction
  chainId : List Nat

/-- A resolved callback. -/
structure ResolvedCallback where
  url : List Nat
  background : Bool
  payload : CallbackPayload

/-- Characters a `{{key}}` span may contain (`[a-z0-9]`). -/
def isTplChar (c : Nat) : Bool := decide ((97 ≤ c ∧ c ≤ 122) ∨ (48 ≤ c ∧ c ≤ 57))

/-- Key lookup over the payload (`payload[m] || ''`): the fixed keys, the
indexed `sigN` keys, and the empty string for anything else (including an
absent `bn`). -/
def payloadGet (p : CallbackPayload) (key : List Nat) : List Nat :=
  if key = [115, 105, 103] then p.sig
  else if key = [116, 120] then p.tx
  else if key = [114, 98, 110] then p.rbn
  else if key = [114, 105, 100] then p.rid
  else if key = [101, 120] then p.ex
  else if key = [114, 101, 113] then p.req
  else if key = [115, 97] then p.sa
  else if key = [115, 112] then p.sp
  else if key = [99, 105, 100] then p.cid
  else if key = [98, 110] then p.bn.getD []
  else
    match (List.range p.extraSigs.length).find? fun i =>
        key == [115, 105, 103] ++ natToDec i with
    | some i => p.extraSigs.getD i []
    | none => []

/-- Replace every `{{key}}` span using the lookup, leaving everything else
unchanged (the `callback.replace(/({{([a-z0-9]+)}})/g, …)` step). -/
def substTemplate (f : List Nat → List Nat) : List Nat → List Nat
  | [] => []
  | 123 :: 123 :: rest =>
    match _hk : rest.takeWhile isTplChar, ha : rest.dropWhile isTplChar with
    | k :: ks, 125 :: 125 :: rest' => f (k :: ks) ++ substTemplate f rest'
    | _, _ => 123 :: substTemplate f (123 :: rest)
  | c :: rest => c :: substTemplate f rest
termination_by l => l.length
decreasing_by
  · have hle : ∀ l : List Nat, (l.dropWhile isTplChar).length ≤ l.length := by
      intro l
      induction l with
      | nil => simp [List.dropWhile]
      | cons a t ih =>
        simp only [List.dropWhile]
        split
        · exact Nat.le_trans ih (by simp)
        · simp
    have hle2 := hle rest
    rw [ha] at hle2
    simp only [List.length_cons] at hle2 ⊢
    omega
  · simp
  · simp

/-- Resolve the callback (`ResolvedSigningRequest.getCallback`): `null` when
the request has no callback string, `NeedSignature` when no signatures are
supplied, otherwise the payload and the templated URL. The re-encoded request
uri (`req`) uses the default encode arguments; with unspecified `compress`
that call cannot fail, so the error case is collapsed. -/
def ResolvedSigningRequest.getCallback (R : ResolvedSigningRequest) (env : CallbackEnv)
    (zlib : Option ZlibProvider) (signatures : List Signature)
    (blockNum : Option Nat) : Except Err (Option ResolvedCallback) :=
  let callback := R.request.data.callback
  if callback.length = 0 then .ok none
  else
    match signatures with
    | [] => .error .needSignature
    | s0 :: srest =>
      let payload : CallbackPayload :=
        ⟨env.renderSig s0, env.renderTxId R.transaction,
          natToDec R.transaction.ref_block_num, natToDec R.transaction.ref_block_prefix,
          env.renderTime R.transaction.expiration,
          (R.request.encodeUri zlib none none schemeEsr).toOption.getD [],
          env.renderName R.signer.actor, env.renderName R.signer.permission,
          bytesToHex R.chainId, srest.map env.renderSig, blockNum.map natToDec⟩
      .ok (some ⟨substTemplate (payloadGet payload) callback,
        getFlag R.request.data.flags RequestFlagsBackground, payload⟩)

/-! ## Identity proofs (identity-proof.ts)

Key recovery and digesting are external crypto; they enter as function
parameters, with the authority check modelled from the spec: an authority
accepts a key when that key alone carries weight reaching the threshold. -/

/-- A weighted key of an authority. -/
structure KeyWeight where
  key : Nat
  weight : Nat
  deriving DecidableEq, Repr

/-- An authority: weighted keys and a threshold. -/
structure Authority where
  threshold : Nat
  keys : List KeyWeight
  deriving DecidableEq, Repr

/-- Modelled from the spec: `Authority.hasPermission` of the external antelope
library — "the authority accepts (weights sufficient to meet threshold for
that key alone)". -/
def Authority.hasPermission (auth : Authority) (pubkey : Nat) : Bool :=
  auth.keys.any fun k => k.key == pubkey && auth.threshold ≤ k.weight

/-- An identity proof. -/
structure IdentityProof where
  chainId : List Nat
  scope : Nat
  expiration : Nat
  signer : PermissionLevel
  signature : Signature
  deriving DecidableEq, Repr

/-- The synthetic transaction the proof signs (`IdentityProof.transaction`):
null TaPoS, the proof's expiration, and a single identity action whose data is
the v3 identity body `{scope, permission: signer}`. -/
def IdentityProof.transaction (p : IdentityProof) : Transaction :=
  ⟨p.expiration, 0, 0, 0, 0, 0, [],
    [⟨0, identityName, [p.signer], encIdentityV3 ⟨p.scope, some p.signer⟩⟩], []⟩

/-- Verify a proof (`IdentityProof.verify`): current time in milliseconds must
be strictly before the expiration in milliseconds, and the authority must
accept the key recovered from the signature over the synthetic transaction's
signing digest. `recoverDigest` and `signingDigest` are the external crypto
collaborators; `now` is in seconds (`TimePointSec`). -/
def IdentityProof.verify (recoverDigest : Signature → Nat → Nat)
    (signingDigest : List Nat → Transaction → Nat) (p : IdentityProof)
    (auth : Authority) (now : Nat) : Bool :=
  decide (now * 1000 < p.expiration * 1000) &&
    auth.hasPermission (recoverDigest p.signature (signingDigest p.chainId p.transaction))

/-! ## Fixtures for the claim witnesses -/

/-- A small concrete action with raw data bytes. -/
def sampleAction : Action := ⟨100, 200, [⟨3, 4⟩], [7, 8]⟩

/-- A small v2 action request (broadcast flag set, no callback, unsigned). -/
def sampleRequest : SigningRequest :=
  ⟨.v2 ⟨.chain_alias 1, .action sampleAction, 1, [], []⟩, none⟩

/-- A small v2 identity request (flags clear, with a callback string). -/
def sampleIdentityRequest : SigningRequest :=
  ⟨.v2 ⟨.chain_alias 1, .identity ⟨none⟩, 0, [104, 105], []⟩, none⟩

/-- A rendering environment whose external string conversions are trivial. -/
def cbEnv0 : CallbackEnv := ⟨fun _ => [], fun _ => [], fun _ => [], fun _ => []⟩

/-- A builder descriptor for a plain v2 identity request. -/
def identityArgs0 : CreateArgs :=
  ⟨none, none, none, some ⟨none, none⟩, .unset, none, none, none, []⟩

/-- A v2 identity body with the broadcast flag bit set (never produced by the
builder; reachable only by hand-crafting a frame). -/
def badIdentityData : StoredData :=
  .v2 ⟨.chain_alias 1, .identity ⟨none⟩, 1, [], []⟩

/-- A compressor that shrinks everything to nothing (witness only). -/
def zlibShrink : ZlibProvider := ⟨fun _ => [], fun _ => []⟩

/-- A concrete identity proof fixture. -/
def proofFixture : IdentityProof := ⟨[1], 5, 10, ⟨20, 21⟩, ⟨0, []⟩⟩

/-- C6 counterexample: for a resolved request whose callback string is empty,
`getCallback` with an empty signature list returns `null` — it does not fail
with `NeedSignature`, contradicting the claim's quantification over every
resolved request. -/
def resolvedNoCallback : ResolvedSigningRequest :=
  ⟨sampleRequest, ⟨3, 4⟩, ⟨0, 0, 0, 0, 0, 0, [], [], []⟩, [1]⟩

/-- A resolved request with a nonempty callback. -/
def resolvedWithCallback : ResolvedSigningRequest :=
  ⟨⟨.v2 ⟨.chain_alias 1, .action sampleAction, 1, [99], []⟩, none⟩, ⟨3, 4⟩,
    ⟨0, 0, 0, 0, 0, 0, [], [], []⟩, [1]⟩

theorem encVaruintAux_fuel (f1 f2 n : Nat) (h1 : n ≤ f1) (h2 : n ≤ f2) :
    encVaruintAux f1 n = encVaruintAux f2 n := by
  induction f1 using Nat.strong_induction_on generalizing f2 n with
  | _ f1 ih =>
    match f1, f2 with
    | 0, 0 => rfl
    | 0, g2 + 1 =>
      have h0 : n = 0 := by omega
      subst h0
      simp [encVaruintAux]
    | g1 + 1, 0 =>
      have h0 : n = 0 := by omega
      subst h0
      simp [encVaruintAux]
    | g1 + 1, g2 + 1 =>
      simp only [encVaruintAux]
      split
      · rfl
      · rename_i hn
        rw [ih g1 (by omega) g2 (n / 128) (by omega) (by omega)]

/-- The source's recursion equation for `encVaruint`. -/
theorem encVaruint_eq (n : Nat) :
    encVaruint n = if n < 128 then [n] else (n % 128 + 128) :: encVaruint (n / 128) := by
  show encVaruintAux n n = _
  match n with
  | 0 => simp [encVaruintAux]
  | m + 1 =>
    simp only [encVaruintAux]
    split
    · rfl
    · rename_i hn
      rw [encVaruintAux_fuel m ((m + 1) / 128) ((m + 1) / 128) (by omega) (by omega)]
      rfl

theorem parseVaruint_enc (n : Nat) (r : List Nat) :
    parseVaruint (encVaruint n ++ r) = some (n, r) := by
  induction n using Nat.strong_induction_on with
  | _ n ih =>
    rw [encVaruint_eq]
    split
    · simpa [parseVaruint] using by omega
    · rename_i h
      simp only [List.cons_append, parseVaruint, List.append_eq]
      rw [if_neg (by omega), ih (n / 128) (Nat.div_lt_self (by omega) (by omega))]
      simp only [Option.some.injEq, Prod.mk.injEq]
      exact ⟨by omega, trivial⟩

theorem encVaruint_lt (n : Nat) : ∀ b ∈ encVaruint n, b < 256 := by
  induction n using Nat.strong_induction_on with
  | _ n ih =>
    rw [encVaruint_eq]
    split
    · intro b hb; simp at hb; omega
    · intro b hb
      simp only [List.mem_cons] at hb
      rcases hb with h | h
      · omega
      · exact ih (n / 128) (Nat.div_lt_self (by omega) (by omega)) b h

theorem parseUIntLE_enc (w n : Nat) (hn : n < 256 ^ w) (r : List Nat) :
    parseUIntLE w (encUIntLE w n ++ r) = some (n, r) := by
  induction w generalizing n with
  | zero =>
    have h0 : n = 0 := by simpa [Nat.lt_one_iff] using hn
    subst h0
    simp [encUIntLE, parseUIntLE]
  | succ w ih =>
    have hd : n / 256 < 256 ^ w := by
      rw [Nat.div_lt_iff_lt_mul (by omega)]
      calc n < 256 ^ (w + 1) := hn
        _ = 256 ^ w * 256 := by rw [Nat.pow_succ]
    simp only [encUIntLE, List.cons_append, List.append_eq, parseUIntLE, ih (n / 256) hd]
    simp only [Option.some.injEq, Prod.mk.injEq]
    exact ⟨by omega, trivial⟩

theorem encUIntLE_lt (w n : Nat) : ∀ b ∈ encUIntLE w n, b < 256 := by
  induction w generalizing n with
  | zero => simp [encUIntLE]
  | succ w ih =>
    intro b hb
    simp only [encUIntLE, List.mem_cons] at hb
    rcases hb with h | h
    · omega
    · exact ih (n / 256) b h

theorem encUIntLE_length (w n : Nat) : (encUIntLE w n).length = w := by
  induction w generalizing n with
  | zero => simp [encUIntLE]
  | succ w ih => simp [encUIntLE, ih]

theorem readBytes_append (bs r : List Nat) :
    readBytes bs.length (bs ++ r) = some (bs, r) := by
  induction bs with
  | nil => simp [readBytes]
  | cons b t ih => simp [readBytes, ih]

theorem parseBytes_enc (bs r : List Nat) :
    parseBytes (encBytes bs ++ r) = some (bs, r) := by
  simp [parseBytes, encBytes, parseVaruint_enc, readBytes_append]

theorem encBytes_lt (bs : List Nat) (h : ∀ b ∈ bs, b < 256) :
    ∀ b ∈ encBytes bs, b < 256 := by
  intro b hb
  simp only [encBytes, List.mem_append] at hb
  rcases hb with h' | h'
  · exact encVaruint_lt _ b h'
  · exact h b h'

theorem parseN_enc {α : Type} (p : List Nat → Option (α × List Nat))
    (f : α → List Nat) (xs : List α) (r : List Nat)
    (h : ∀ a ∈ xs, ∀ r', p (f a ++ r') = some (a, r')) :
    parseN p xs.length ((xs.map f).flatten ++ r) = some (xs, r) := by
  induction xs with
  | nil => simp [parseN]
  | cons a t ih =>
    simp only [List.map_cons, List.flatten_cons, List.length_cons, List.append_assoc, parseN,
      h a (by simp), ih (fun a ha r' => h a (by simp [ha]) r')]

theorem parseListWith_enc {α : Type} (p : List Nat → Option (α × List Nat))
    (f : α → List Nat) (xs : List α) (r : List Nat)
    (h : ∀ a ∈ xs, ∀ r', p (f a ++ r') = some (a, r')) :
    parseListWith p (encListWith f xs ++ r) = some (xs, r) := by
  simp only [encListWith, List.append_assoc, parseListWith, parseVaruint_enc]
  exact parseN_enc p f xs r h

theorem encListWith_lt {α : Type} (f : α → List Nat) (xs : List α)
    (h : ∀ a ∈ xs, ∀ b ∈ f a, b < 256) : ∀ b ∈ encListWith f xs, b < 256 := by
  intro b hb
  simp only [encListWith, List.mem_append] at hb
  rcases hb with h' | h'
  · exact encVaruint_lt _ b h'
  · obtain ⟨l, hl, hbl⟩ := List.mem_flatten.mp h'
    obtain ⟨a, ha, rfl⟩ := List.mem_map.mp hl
    exact h a ha b hbl

theorem parseOption_enc {α : Type} (p : List Nat → Option (α × List Nat))
    (f : α → List Nat) (x : Option α) (r : List Nat)
    (h : ∀ a, ∀ r', p (f a ++ r') = some (a, r')) :
    parseOption p (encOption f x ++ r) = some (x, r) := by
  cases x with
  | none => simp [encOption, parseOption]
  | some a => simp [encOption, parseOption, h a r]

theorem b64lookup_le (c : Nat) : b64lookup c ≤ 63 := by
  simp only [b64lookup]
  split_ifs <;> omega

theorem b64lookup_charAt (u : Bool) (k : Nat) (hk : k < 64) :
    b64lookup (b64charAt u k) = k := by
  have h : ∀ u' : Bool,
      ((List.range 64).all fun k => b64lookup (b64charAt u' k) == k) = true := by decide
  have h' := List.all_eq_true.mp (h u) k (List.mem_range.mpr hk)
  simpa using h'

theorem b64charAt_ne_colon (u : Bool) (k : Nat) : b64charAt u k ≠ 58 := by
  rcases Nat.lt_or_ge k 64 with h | h
  · have hall : ∀ u' : Bool,
        ((List.range 64).all fun k => b64charAt u' k != 58) = true := by decide
    have h' := List.all_eq_true.mp (hall u) k (List.mem_range.mpr h)
    simpa using h'
  · have hlen : (b64charset u).length = 64 := by cases u <;> decide
    unfold b64charAt
    rw [List.getD_eq_default _ _ (by omega)]
    omega

theorem mem_b64encode (u : Bool) (b : List Nat) (c : Nat) (hc : c ∈ b64encode u b) :
    ∃ k, c = b64charAt u k := by
  induction b using b64encode.induct u with
  | case1 b0 b1 b2 rest ih =>
    simp only [b64encode, List.mem_cons] at hc
    rcases hc with h | h | h | h | h
    · exact ⟨_, h⟩
    · exact ⟨_, h⟩
    · exact ⟨_, h⟩
    · exact ⟨_, h⟩
    · exact ih h
  | case2 b0 =>
    simp only [b64encode, List.mem_cons] at hc
    rcases hc with h | h | h
    · exact ⟨_, h⟩
    · exact ⟨_, h⟩
    · simp at h
  | case3 b0 b1 =>
    simp only [b64encode, List.mem_cons] at hc
    rcases hc with h | h | h | h
    · exact ⟨_, h⟩
    · exact ⟨_, h⟩
    · exact ⟨_, h⟩
    · simp at h
  | case4 => simp [b64encode] at hc

theorem b64encode_ne_colon (u : Bool) (b : List Nat) : ∀ c ∈ b64encode u b, c ≠ 58 := by
  intro c hc
  obtain ⟨k, rfl⟩ := mem_b64encode u b c hc
  exact b64charAt_ne_colon u k

/-- Encoded length: four chars per three bytes, plus two or three chars for a
one- or two-byte remainder. -/
theorem b64encode_length (u : Bool) (b : List Nat) :
    (b64encode u b).length =
      4 * (b.length / 3) + (if b.length % 3 = 0 then 0 else b.length % 3 + 1) := by
  induction b using b64encode.induct u with
  | case1 b0 b1 b2 rest ih =>
    simp only [b64encode, List.length_cons, ih]
    have hq : (rest.length + 1 + 1 + 1) / 3 = rest.length / 3 + 1 := by omega
    have hm : (rest.length + 1 + 1 + 1) % 3 = rest.length % 3 := by omega
    rw [hq, hm]
    split_ifs <;> omega
  | case2 b0 => simp [b64encode]
  | case3 b0 b1 => simp [b64encode]
  | case4 => simp [b64encode]

theorem sextetsToBytes_b64encode (u : Bool) (b : List Nat) (h : ∀ x ∈ b, x < 256) :
    sextetsToBytes ((b64encode u b).map b64lookup) =
      b ++ (if b.length % 3 = 0 then [] else List.replicate (3 - b.length % 3) 0) := by
  induction b using b64encode.induct u with
  | case1 b0 b1 b2 rest ih =>
    have h0 : b0 < 256 := h b0 (by simp)
    have h1 : b1 < 256 := h b1 (by simp)
    have h2 : b2 < 256 := h b2 (by simp)
    simp only [b64encode, List.map_cons,
      b64lookup_charAt u _ (Nat.mod_lt _ (by omega)), sextetsToBytes]
    rw [ih (fun x hx => h x (by simp [hx]))]
    have e0 : (b0 * 65536 + b1 * 256 + b2) / 262144 % 64 * 4 +
        (b0 * 65536 + b1 * 256 + b2) / 4096 % 64 / 16 = b0 := by omega
    have e1 : (b0 * 65536 + b1 * 256 + b2) / 4096 % 64 % 16 * 16 +
        (b0 * 65536 + b1 * 256 + b2) / 64 % 64 / 4 = b1 := by omega
    have e2 : (b0 * 65536 + b1 * 256 + b2) / 64 % 64 % 4 * 64 +
        (b0 * 65536 + b1 * 256 + b2) % 64 % 64 = b2 := by omega
    rw [e0, e1, e2]
    simp only [List.cons_append, List.length_cons]
    have hm : (rest.length + 1 + 1 + 1) % 3 = rest.length % 3 := by omega
    rw [hm]
  | case2 b0 =>
    have h0 : b0 < 256 := h b0 (by simp)
    simp only [b64encode, List.map_cons, List.map_nil,
      b64lookup_charAt u _ (by omega : b0 / 4 % 64 < 64),
      b64lookup_charAt u _ (by omega : b0 % 4 * 16 < 64), sextetsToBytes]
    have e0 : b0 / 4 % 64 * 4 + b0 % 4 * 16 / 16 = b0 := by omega
    have e1 : b0 % 4 * 16 % 16 * 16 = 0 := by omega
    rw [e0, e1]
    simp [List.replicate]
  | case3 b0 b1 =>
    have h0 : b0 < 256 := h b0 (by simp)
    have h1 : b1 < 256 := h b1 (by simp)
    simp only [b64encode, List.map_cons, List.map_nil,
      b64lookup_charAt u _ (Nat.mod_lt _ (by omega)),
      b64lookup_charAt u _ (by omega : (b0 * 256 + b1) % 16 * 4 < 64), sextetsToBytes]
    have e0 : (b0 * 256 + b1) / 1024 % 64 * 4 + (b0 * 256 + b1) / 16 % 64 / 16 = b0 := by
      omega
    have e1 : (b0 * 256 + b1) / 16 % 64 % 16 * 16 + (b0 * 256 + b1) % 16 * 4 / 4 = b1 := by
      omega
    have e2 : (b0 * 256 + b1) % 16 * 4 % 4 * 64 = 0 := by omega
    rw [e0, e1, e2]
    simp [List.replicate]
  | case4 => simp [b64encode, sextetsToBytes]

/-- Round trip: decoding an encoded byte string returns it unchanged. -/
theorem b64decode_encode (u : Bool) (b : List Nat) (h : ∀ x ∈ b, x < 256) :
    b64decode (b64encode u b) = b := by
  unfold b64decode
  rw [sextetsToBytes_b64encode u b h, b64encode_length]
  have hm3 : b.length % 3 = 0 ∨ b.length % 3 = 1 ∨ b.length % 3 = 2 := by omega
  have htake : 3 * (4 * (b.length / 3) +
      (if b.length % 3 = 0 then 0 else b.length % 3 + 1)) / 4 = b.length := by
    rcases hm3 with h3 | h3 | h3 <;> simp [h3] <;> omega
  rw [htake]
  rcases hm3 with h3 | h3 | h3 <;> simp [h3, List.take_left]

theorem sextetsToBytes_length (l : List Nat) :
    (sextetsToBytes l).length = 3 * ((l.length + 3) / 4) := by
  induction l using sextetsToBytes.induct with
  | case1 a b c d rest ih =>
    simp only [sextetsToBytes, List.length_cons, ih]
    omega
  | case2 a => simp [sextetsToBytes]
  | case3 a b => simp [sextetsToBytes]
  | case4 a b c => simp [sextetsToBytes]
  | case5 => simp [sextetsToBytes]

/-- The decoder always returns exactly `⌊3m/4⌋` bytes for an `m`-char input. -/
theorem b64decode_length (s : List Nat) : (b64decode s).length = 3 * s.length / 4 := by
  simp only [b64decode, List.length_take, sextetsToBytes_length, List.length_map]
  omega

theorem b64lookup_eq_zero_of_junk (c : Nat) (h : isB64char c = false) :
    b64lookup c = 0 := by
  have hmem : 65 ≤ c ∧ c ≤ 90 ∨ 97 ≤ c ∧ c ≤ 122 ∨ 48 ≤ c ∧ c ≤ 57 →
      c ∈ b64baseCharset := by
    intro hk
    simp only [b64baseCharset, List.mem_append, List.mem_map, List.mem_range]
    rcases hk with h' | h' | h'
    · exact Or.inl (Or.inl ⟨c - 65, by omega, by omega⟩)
    · exact Or.inl (Or.inr ⟨c - 97, by omega, by omega⟩)
    · exact Or.inr ⟨c - 48, by omega, by omega⟩
  have hbase : c ∉ b64baseCharset := by
    intro hc
    have ht : isB64char c = true := by
      simp only [isB64char, decide_eq_true_eq]
      exact Or.inl (by simp [b64charset, List.mem_append, hc])
    simp [ht] at h
  simp only [b64lookup]
  split_ifs with h1 h2 h3 h4 h5
  · exact absurd (hmem (Or.inl h1)) hbase
  · exact absurd (hmem (Or.inr (Or.inl h2))) hbase
  · exact absurd (hmem (Or.inr (Or.inr h3))) hbase
  · rcases h4 with rfl | rfl <;> exact absurd h (by decide)
  · rcases h5 with rfl | rfl <;> exact absurd h (by decide)
  · rfl

theorem list_set_eq_self {α : Type} (l : List α) (i : Nat) (v : α)
    (h : ∀ hi : i < l.length, l.get ⟨i, hi⟩ = v) : l.set i v = l := by
  induction l generalizing i with
  | nil => rfl
  | cons a t ih =>
    cases i with
    | zero => simp [List.set, (h (by simp)).symm]
    | succ j =>
      simp only [List.set, List.cons.injEq, true_and]
      exact ih j fun hj => h (by simpa using Nat.succ_lt_succ hj)

/-- Replacing any non-alphabet character by `A` (char code 65, 6-bit value 0)
does not change the decoded bytes. -/
theorem b64decode_junk_as_A (s : List Nat) (i : Nat)
    (h : isB64char (s.getD i 0) = false) :
    b64decode (s.set i 65) = b64decode s := by
  unfold b64decode
  rw [List.length_set]
  have hmap : (s.set i 65).map b64lookup = s.map b64lookup := by
    rw [List.map_set]
    have h65 : b64lookup 65 = 0 := by decide
    rw [h65]
    apply list_set_eq_self
    intro hi
    rw [List.get_map]
    apply b64lookup_eq_zero_of_junk
    have : s.getD i 0 = s.get ⟨i, by simpa using hi⟩ := by
      simp [List.getD_eq_getElem?_getD, List.getElem?_eq_getElem (by simpa using hi)]
    rwa [this] at h
  rw [hmap]

/-! ## Round-trip lemmas for the wire codecs -/

theorem encVaruint_eq_of_lt (n : Nat) (h : n < 128) : encVaruint n = [n] := by
  rw [encVaruint_eq]
  simp [h]

theorem parseName_enc (n : Nat) (h : wfName n) (r : List Nat) :
    parseName (encName n ++ r) = some (n, r) := by
  have h8 : (256 : Nat) ^ 8 = 2 ^ 64 := by norm_num
  exact parseUIntLE_enc 8 n (by rw [h8]; exact h) r

theorem parsePermissionLevel_enc (p : PermissionLevel) (h : wfPermissionLevel p)
    (r : List Nat) : parsePermissionLevel (encPermissionLevel p ++ r) = some (p, r) := by
  simp only [encPermissionLevel, List.append_assoc, parsePermissionLevel,
    parseName_enc _ h.1, parseName_enc _ h.2]

theorem parseAction_enc (a : Action) (h : wfAction a) (r : List Nat) :
    parseAction (encAction a ++ r) = some (a, r) := by
  simp only [encAction, List.append_assoc, parseAction, parseName_enc _ h.1,
    parseName_enc _ h.2.1,
    parseListWith_enc parsePermissionLevel encPermissionLevel a.authorization _
      (fun p hp r' => parsePermissionLevel_enc p (h.2.2.1 p hp) r'),
    parseBytes_enc]

theorem parseTransactionExtension_enc (e : TransactionExtension)
    (h : wfTransactionExtension e) (r : List Nat) :
    parseTransactionExtension (encTransactionExtension e ++ r) = some (e, r) := by
  have h16 : (256 : Nat) ^ 2 = 2 ^ 16 := by norm_num
  simp only [encTransactionExtension, List.append_assoc, parseTransactionExtension,
    parseUIntLE_enc 2 e.type (by rw [h16]; exact h.1), parseBytes_enc]

theorem parseTransaction_enc (t : Transaction) (h : wfTransaction t) (r : List Nat) :
    parseTransaction (encTransaction t ++ r) = some (t, r) := by
  have h32 : (256 : Nat) ^ 4 = 2 ^ 32 := by norm_num
  have h16 : (256 : Nat) ^ 2 = 2 ^ 16 := by norm_num
  have h8 : (256 : Nat) ^ 1 = 2 ^ 8 := by norm_num
  simp only [encTransaction, List.append_assoc, parseTransaction,
    parseUIntLE_enc 4 t.expiration (by rw [h32]; exact h.1),
    parseUIntLE_enc 2 t.ref_block_num (by rw [h16]; exact h.2.1),
    parseUIntLE_enc 4 t.ref_block_prefix (by rw [h32]; exact h.2.2.1),
    parseVaruint_enc,
    parseUIntLE_enc 1 t.max_cpu_usage_ms (by rw [h8]; exact h.2.2.2.1),
    parseListWith_enc parseAction encAction t.context_free_actions _
      (fun a ha r' => parseAction_enc a (h.2.2.2.2.1 a ha) r'),
    parseListWith_enc parseAction encAction t.actions _
      (fun a ha r' => parseAction_enc a (h.2.2.2.2.2.1 a ha) r'),
    parseListWith_enc parseTransactionExtension encTransactionExtension
      t.transaction_extensions _
      (fun e he r' => parseTransactionExtension_enc e (h.2.2.2.2.2.2 e he) r')]

theorem parseIdentityV2_enc (i : IdentityV2) (h : wfIdentityV2 i) (r : List Nat) :
    parseIdentityV2 (encIdentityV2 i ++ r) = some (i, r) := by
  rcases i with ⟨p⟩
  cases p with
  | none => simp [encIdentityV2, encOption, parseIdentityV2, parseOption]
  | some p =>
    simp [encIdentityV2, encOption, parseIdentityV2, parseOption,
      parsePermissionLevel_enc p h r]

theorem parseIdentityV3_enc (i : IdentityV3) (h : wfIdentityV3 i) (r : List Nat) :
    parseIdentityV3 (encIdentityV3 i ++ r) = some (i, r) := by
  rcases i with ⟨sc, p⟩
  cases p with
  | none =>
    simp [encIdentityV3, encOption, parseIdentityV3, parseOption, List.append_assoc,
      parseName_enc _ h.1]
  | some p =>
    simp [encIdentityV3, encOption, parseIdentityV3, parseOption, List.append_assoc,
      parseName_enc _ h.1, parsePermissionLevel_enc p h.2 r]

theorem parseChainIdVariant_enc (c : ChainIdVariant) (h : wfChainIdVariant c)
    (r : List Nat) : parseChainIdVariant (encChainIdVariant c ++ r) = some (c, r) := by
  cases c with
  | chain_alias a =>
    have ha : a < 256 := h
    simp only [encChainIdVariant, List.append_assoc, parseChainIdVariant,
      parseVaruint_enc, parseUIntLE_enc 1 a (by simpa using ha)]
  | chain_id id =>
    have h32 : id.length = 32 := h.1
    simp only [encChainIdVariant, List.append_assoc, parseChainIdVariant, parseVaruint_enc]
    rw [← h32, readBytes_append]

theorem parseReqVariant_enc {ι : Type} (parseI : List Nat → Option (ι × List Nat))
    (encI : ι → List Nat) (wfI : ι → Prop) (v : ReqVariant ι)
    (h : wfReqVariant wfI v)
    (hI : ∀ i, wfI i → ∀ r', parseI (encI i ++ r') = some (i, r')) (r : List Nat) :
    parseReqVariant parseI (encReqVariant encI v ++ r) = some (v, r) := by
  cases v with
  | action a =>
    simp only [encReqVariant, List.append_assoc, parseReqVariant, parseVaruint_enc,
      parseAction_enc a h]
  | action_list acts =>
    simp only [encReqVariant, List.append_assoc, parseReqVariant, parseVaruint_enc,
      parseListWith_enc parseAction encAction acts r
        (fun a ha r' => parseAction_enc a (h a ha) r')]
  | transaction t =>
    simp only [encReqVariant, List.append_assoc, parseReqVariant, parseVaruint_enc,
      parseTransaction_enc t h]
  | identity i =>
    simp only [encReqVariant, List.append_assoc, parseReqVariant, parseVaruint_enc,
      hI i h]

theorem parseInfoPair_enc (p : InfoPair) (r : List Nat) :
    parseInfoPair (encInfoPair p ++ r) = some (p, r) := by
  simp only [encInfoPair, List.append_assoc, parseInfoPair, parseBytes_enc]

theorem parseRequestData_enc {ι : Type} (parseI : List Nat → Option (ι × List Nat))
    (encI : ι → List Nat) (wfI : ι → Prop) (d : RequestData ι)
    (h : wfRequestData wfI d)
    (hI : ∀ i, wfI i → ∀ r', parseI (encI i ++ r') = some (i, r')) (r : List Nat) :
    parseRequestData parseI (encRequestData encI d ++ r) = some (d, r) := by
  have h8 : (256 : Nat) ^ 1 = 2 ^ 8 := by norm_num
  simp only [encRequestData, List.append_assoc, parseRequestData,
    parseChainIdVariant_enc d.chain_id h.1,
    parseReqVariant_enc parseI encI wfI d.req h.2.1 hI,
    parseUIntLE_enc 1 d.flags (by rw [h8]; exact (by simpa using h.2.2.1)),
    parseBytes_enc,
    parseListWith_enc parseInfoPair encInfoPair d.info _
      (fun p _ r' => parseInfoPair_enc p r')]

theorem parseSignature_enc (s : Signature) (h : wfSignature s) (r : List Nat) :
    parseSignature (encSignature s ++ r) = some (s, r) := by
  have ht : parseUIntLE 1 (encUIntLE 1 s.type ++ (s.data ++ r)) =
      some (s.type, s.data ++ r) :=
    parseUIntLE_enc 1 s.type (by rcases h.1 with h1 | h1 <;> simp [h1]) _
  simp only [encSignature, List.append_assoc, parseSignature, ht, if_pos h.1]
  rw [← h.2.1, readBytes_append]

theorem parseRequestSignature_enc (rs : RequestSignature) (h : wfRequestSignature rs)
    (r : List Nat) : parseRequestSignature (encRequestSignature rs ++ r) = some (rs, r) := by
  simp only [encRequestSignature, List.append_assoc, parseRequestSignature,
    parseName_enc _ h.1, parseSignature_enc rs.signature h.2]

/-! ## Encoder output ranges

Every encoder emits bytes (values < 256) on well-formed input; this backs the
`Uint8Array` framing and the base64 round trip. -/

theorem wfBytes_append {l1 l2 : List Nat} (h1 : wfBytes l1) (h2 : wfBytes l2) :
    wfBytes (l1 ++ l2) := by
  intro b hb
  rcases List.mem_append.mp hb with h | h
  · exact h1 b h
  · exact h2 b h

theorem encName_wf (n : Nat) : wfBytes (encName n) := encUIntLE_lt 8 n

theorem encPermissionLevel_wf (p : PermissionLevel) : wfBytes (encPermissionLevel p) :=
  wfBytes_append (encName_wf _) (encName_wf _)

theorem encAction_wf (a : Action) (h : wfBytes a.data) : wfBytes (encAction a) :=
  wfBytes_append
    (wfBytes_append (wfBytes_append (encName_wf _) (encName_wf _))
      (encListWith_lt _ _ fun p _ => encPermissionLevel_wf p))
    (encBytes_lt _ h)

theorem encTransactionExtension_wf (e : TransactionExtension) (h : wfBytes e.data) :
    wfBytes (encTransactionExtension e) :=
  wfBytes_append (encUIntLE_lt 2 _) (encBytes_lt _ h)

theorem encTransaction_wf (t : Transaction) (h : wfTransaction t) :
    wfBytes (encTransaction t) :=
  wfBytes_append
    (wfBytes_append
      (wfBytes_append
        (wfBytes_append
          (wfBytes_append
            (wfBytes_append
              (wfBytes_append (wfBytes_append (encUIntLE_lt 4 _) (encUIntLE_lt 2 _))
                (encUIntLE_lt 4 _))
              (encVaruint_lt _))
            (encUIntLE_lt 1 _))
          (encVaruint_lt _))
        (encListWith_lt _ _ fun a ha => encAction_wf a (h.2.2.2.2.1 a ha).2.2.2))
      (encListWith_lt _ _ fun a ha => encAction_wf a (h.2.2.2.2.2.1 a ha).2.2.2))
    (encListWith_lt _ _ fun e he => encTransactionExtension_wf e (h.2.2.2.2.2.2 e he).2)

theorem encOption_wf {α : Type} (f : α → List Nat) (x : Option α)
    (h : ∀ a ∈ x.toList, wfBytes (f a)) : wfBytes (encOption f x) := by
  cases x with
  | none => intro b hb; simp [encOption] at hb; omega
  | some a =>
    intro b hb
    simp only [encOption, List.mem_cons] at hb
    rcases hb with rfl | hb
    · omega
    · exact h a (by simp) b hb

theorem encIdentityV2_wf (i : IdentityV2) : wfBytes (encIdentityV2 i) :=
  encOption_wf _ _ fun p _ => encPermissionLevel_wf p

theorem encIdentityV3_wf (i : IdentityV3) : wfBytes (encIdentityV3 i) :=
  wfBytes_append (encName_wf _) (encOption_wf _ _ fun p _ => encPermissionLevel_wf p)

theorem encChainIdVariant_wf (c : ChainIdVariant) (h : wfChainIdVariant c) :
    wfBytes (encChainIdVariant c) := by
  cases c with
  | chain_alias a => exact wfBytes_append (encVaruint_lt _) (encUIntLE_lt 1 _)
  | chain_id id => exact wfBytes_append (encVaruint_lt _) h.2

theorem encReqVariant_wf {ι : Type} (encI : ι → List Nat) (wfI : ι → Prop)
    (v : ReqVariant ι) (h : wfReqVariant wfI v)
    (hI : ∀ i, wfI i → wfBytes (encI i)) : wfBytes (encReqVariant encI v) := by
  cases v with
  | action a => exact wfBytes_append (encVaruint_lt _) (encAction_wf a h.2.2.2)
  | action_list acts =>
    exact wfBytes_append (encVaruint_lt _)
      (encListWith_lt _ _ fun a ha => encAction_wf a (h a ha).2.2.2)
  | transaction t => exact wfBytes_append (encVaruint_lt _) (encTransaction_wf t h)
  | identity i => exact wfBytes_append (encVaruint_lt _) (hI i h)

theorem encInfoPair_wf (p : InfoPair) (h : wfInfoPair p) : wfBytes (encInfoPair p) :=
  wfBytes_append (encBytes_lt _ h.1) (encBytes_lt _ h.2)

theorem encRequestData_wf {ι : Type} (encI : ι → List Nat) (wfI : ι → Prop)
    (d : RequestData ι) (h : wfRequestData wfI d)
    (hI : ∀ i, wfI i → wfBytes (encI i)) : wfBytes (encRequestData encI d) :=
  wfBytes_append
    (wfBytes_append
      (wfBytes_append
        (wfBytes_append (encChainIdVariant_wf _ h.1)
          (encReqVariant_wf encI wfI _ h.2.1 hI))
        (encUIntLE_lt 1 _))
      (encBytes_lt _ h.2.2.2.1))
    (encListWith_lt _ _ fun p hp => encInfoPair_wf p (h.2.2.2.2 p hp))

theorem encSignature_wf (s : Signature) (h : wfSignature s) :
    wfBytes (encSignature s) :=
  wfBytes_append (encUIntLE_lt 1 _) h.2.2

theorem encRequestSignature_wf (rs : RequestSignature) (h : wfRequestSignature rs) :
    wfBytes (encRequestSignature rs) :=
  wfBytes_append (encName_wf _) (encSignature_wf _ h.2)

theorem StoredData.enc_wf (d : StoredData) (h : wfStoredData d) :
    wfBytes (StoredData.enc d) := by
  cases d with
  | v2 d => exact encRequestData_wf _ wfIdentityV2 d h fun i _ => encIdentityV2_wf i
  | v3 d => exact encRequestData_wf _ wfIdentityV3 d h fun i _ => encIdentityV3_wf i

theorem wfBytes_nil : wfBytes [] := by intro b hb; simp at hb

theorem getSignatureData_wf (r : SigningRequest) (h : wfOptRequestSignature r.signature) :
    wfBytes (SigningRequest.getSignatureData r) := by
  rcases r with ⟨d, sig⟩
  cases sig with
  | none => exact wfBytes_nil
  | some s => exact encRequestSignature_wf s h

/-- The signature-tail step of `fromData`: an empty remainder yields an
unsigned request, otherwise the remainder parses as the signature trailer;
either way the constructor is invoked on the parsed fields. -/
theorem fromData_sigTail (d : StoredData) (sig : Option RequestSignature)
    (hs : wfOptRequestSignature sig) :
    (match SigningRequest.getSignatureData ⟨d, sig⟩ with
      | [] => mkSigningRequest d none
      | _ :: _ =>
        match parseRequestSignature (SigningRequest.getSignatureData ⟨d, sig⟩) with
        | some (s, _) => mkSigningRequest d (some s)
        | none => .error .decodeError) = mkSigningRequest d sig := by
  cases sig with
  | none => rfl
  | some s =>
    obtain ⟨c, t, hct⟩ : ∃ c t, encRequestSignature s = c :: t := ⟨_, _, rfl⟩
    have hparse : parseRequestSignature (encRequestSignature s) = some (s, []) := by
      have h' := parseRequestSignature_enc s hs []
      rwa [List.append_nil] at h'
    simp only [SigningRequest.getSignatureData, hct] at hparse ⊢
    simp only [hparse]

/-- Decoding an uncompressed frame `version :: payload ++ sigdata` invokes the
constructor on the original fields. -/
theorem fromData_frame_plain (r : SigningRequest) (hd : wfStoredData r.data)
    (hs : wfOptRequestSignature r.signature) (zlib : Option ZlibProvider) :
    SigningRequest.fromData zlib (r.version :: (r.getData ++ r.getSignatureData)) =
      mkSigningRequest r.data r.signature := by
  obtain ⟨d, sig⟩ := r
  cases d with
  | v2 dd =>
    have hp := parseRequestData_enc parseIdentityV2 encIdentityV2 wfIdentityV2 dd hd
      (fun i hi r' => parseIdentityV2_enc i hi r')
      (SigningRequest.getSignatureData ⟨.v2 dd, sig⟩)
    have htail := fromData_sigTail (.v2 dd) sig hs
    simp only [SigningRequest.fromData, SigningRequest.version, StoredData.version,
      SigningRequest.getData, StoredData.enc, List.headD_cons]
    norm_num
    simp only [List.drop_succ_cons, List.drop_zero, hp, Option.map_some]
    exact htail
  | v3 dd =>
    have hp := parseRequestData_enc parseIdentityV3 encIdentityV3 wfIdentityV3 dd hd
      (fun i hi r' => parseIdentityV3_enc i hi r')
      (SigningRequest.getSignatureData ⟨.v3 dd, sig⟩)
    have htail := fromData_sigTail (.v3 dd) sig hs
    simp only [SigningRequest.fromData, SigningRequest.version, StoredData.version,
      SigningRequest.getData, StoredData.enc, List.headD_cons]
    norm_num
    simp only [List.drop_succ_cons, List.drop_zero, hp, Option.map_some]
    exact htail

/-- Decoding a compressed frame `(version | 0x80) :: deflate(payload ++ sigdata)`
invokes the constructor on the original fields whenever the compressor
satisfies its contract. -/
theorem fromData_frame_compressed (r : SigningRequest) (hd : wfStoredData r.data)
    (hs : wfOptRequestSignature r.signature) (z : ZlibProvider) (hz : ZlibOk (some z)) :
    SigningRequest.fromData (some z)
      ((r.version ||| 128) :: z.deflateRaw (r.getData ++ r.getSignatureData)) =
      mkSigningRequest r.data r.signature := by
  have harr : wfBytes (r.getData ++ r.getSignatureData) :=
    wfBytes_append (StoredData.enc_wf r.data hd) (getSignatureData_wf r hs)
  have hinfl := (hz (r.getData ++ r.getSignatureData) harr).1
  obtain ⟨d, sig⟩ := r
  cases d with
  | v2 dd =>
    have hp := parseRequestData_enc parseIdentityV2 encIdentityV2 wfIdentityV2 dd hd
      (fun i hi r' => parseIdentityV2_enc i hi r')
      (SigningRequest.getSignatureData ⟨.v2 dd, sig⟩)
    have htail := fromData_sigTail (.v2 dd) sig hs
    simp only [SigningRequest.fromData, SigningRequest.version, StoredData.version,
      List.headD_cons]
    simp only [show (2 ||| 128 : Nat) = 130 from by decide]
    norm_num
    rw [hinfl]
    simp only [SigningRequest.getData, StoredData.enc] at hp ⊢
    simp only [hp, Option.map_some]
    exact htail
  | v3 dd =>
    have hp := parseRequestData_enc parseIdentityV3 encIdentityV3 wfIdentityV3 dd hd
      (fun i hi r' => parseIdentityV3_enc i hi r')
      (SigningRequest.getSignatureData ⟨.v3 dd, sig⟩)
    have htail := fromData_sigTail (.v3 dd) sig hs
    simp only [SigningRequest.fromData, SigningRequest.version, StoredData.version,
      List.headD_cons]
    simp only [show (3 ||| 128 : Nat) = 131 from by decide]
    norm_num
    rw [hinfl]
    simp only [SigningRequest.getData, StoredData.enc] at hp ⊢
    simp only [hp, Option.map_some]
    exact htail

/-- Every frame `encodeBytes` produces decodes back through the constructor on
the original fields. -/
theorem fromData_encodeBytes (r : SigningRequest) (hd : wfStoredData r.data)
    (hs : wfOptRequestSignature r.signature)
    (zlib : Option ZlibProvider) (hz : ZlibOk zlib) (compress : Option Bool)
    (out : List Nat) (henc : r.encodeBytes zlib compress = .ok out) :
    SigningRequest.fromData zlib out = mkSigningRequest r.data r.signature := by
  cases zlib with
  | none =>
    rcases hcd : compress.getD false with _ | _
    · simp only [SigningRequest.encodeBytes, Option.isSome_none, hcd] at henc
      cases henc
      exact fromData_frame_plain r hd hs none
    · simp only [SigningRequest.encodeBytes, Option.isSome_none, hcd] at henc
      cases henc
  | some z =>
    rcases hcd : compress.getD true with _ | _
    · simp only [SigningRequest.encodeBytes, Option.isSome_some, hcd] at henc
      cases henc
      exact fromData_frame_plain r hd hs (some z)
    · simp only [SigningRequest.encodeBytes, Option.isSome_some, hcd] at henc
      split at henc
      · cases henc
        exact fromData_frame_compressed r hd hs z hz
      · cases henc
        exact fromData_frame_plain r hd hs (some z)

theorem takeWhile_ne_colon (l : List Nat) (h : ∀ c ∈ l, c ≠ 58) :
    (l.takeWhile fun x => x != 58) = l := by
  induction l with
  | nil => rfl
  | cons c t ih =>
    have hc : (c != 58) = true := by simpa using h c (by simp)
    simp only [List.takeWhile_cons, hc, if_pos]
    rw [ih fun c hc => h c (by simp [hc])]

theorem afterFirstColon_append (s t : List Nat) (h : ∀ c ∈ s, c ≠ 58) :
    afterFirstColon (s ++ 58 :: t) = some (t.takeWhile fun x => x != 58) := by
  induction s with
  | nil => simp [afterFirstColon]
  | cons c cs ih =>
    have hc : c ≠ 58 := h c (by simp)
    simp only [List.cons_append, afterFirstColon, if_neg hc]
    exact ih fun c hc => h c (by simp [hc])

/-- Decoding `scheme0 ++ "://" ++ base64u(frame)` is decoding the frame, for
any colon-free scheme prefix. -/
theorem fromUri_frame (zlib : Option ZlibProvider) (scheme0 frame : List Nat)
    (h58 : ∀ c ∈ scheme0, c ≠ 58) (hfr : wfBytes frame) :
    SigningRequest.fromUri zlib (scheme0 ++ (58 :: (47 :: 47 :: b64encode true frame))) =
      SigningRequest.fromData zlib frame := by
  have htw : ((47 :: 47 :: b64encode true frame).takeWhile fun x => x != 58) =
      47 :: 47 :: b64encode true frame := by
    apply takeWhile_ne_colon
    intro c hc
    simp only [List.mem_cons] at hc
    rcases hc with rfl | rfl | hc
    · omega
    · omega
    · exact b64encode_ne_colon true frame c hc
  simp only [SigningRequest.fromUri, afterFirstColon_append _ _ h58, htw,
    b64decode_encode true frame hfr]

/-! ## Flag and constructor support lemmas -/

theorem mkSigningRequest_ok (r : SigningRequest)
    (hinv : ¬(r.data.broadcastFlag = true ∧ SigningRequest.isIdentityData r.data = true)) :
    mkSigningRequest r.data r.signature = .ok r := by
  unfold mkSigningRequest
  rw [if_neg hinv]

theorem land_one_lor_one (f : Nat) : (f ||| 1) &&& 1 = 1 := by
  apply Nat.eq_of_testBit_eq
  intro i
  rw [Nat.testBit_and, Nat.testBit_lor]
  rcases hf : f.testBit i <;> rcases h1 : Nat.testBit 1 i <;> simp [hf, h1]

theorem getFlag_setBroadcast_true (f : Nat) :
    getFlag (setFlag f RequestFlagsBroadcast true) RequestFlagsBroadcast = true := by
  simp only [setFlag, RequestFlagsBroadcast, if_pos, getFlag, land_one_lor_one]
  decide

theorem getFlag_broadcast_setBackground (f : Nat) (b : Bool) :
    getFlag (setFlag f RequestFlagsBackground b) RequestFlagsBroadcast =
      getFlag f RequestFlagsBroadcast := by
  cases b with
  | true =>
    have h : (f ||| 2) &&& 1 = f &&& 1 := by
      apply Nat.eq_of_testBit_eq
      intro i
      rw [Nat.testBit_and, Nat.testBit_lor, Nat.testBit_and]
      have h21 : (Nat.testBit 2 i && Nat.testBit 1 i) = false := by
        rw [← Nat.testBit_and]
        simp [show (2 &&& 1 : Nat) = 0 from by decide]
      rcases hf : f.testBit i <;> rcases h2 : Nat.testBit 2 i <;>
        rcases h1 : Nat.testBit 1 i <;> simp_all
    simp only [setFlag, RequestFlagsBackground, RequestFlagsBroadcast, if_pos, getFlag, h]
  | false =>
    have h : (f &&& (255 ^^^ 2)) &&& 1 = f &&& 1 := by
      rw [Nat.and_assoc]
      norm_num
    simp only [setFlag, RequestFlagsBackground, RequestFlagsBroadcast, getFlag]
    rw [if_neg (by simp)]
    rw [h]

theorem setFlag_lt_256 (f flag : Nat) (hf : f < 256) (hfl : flag < 256) (b : Bool) :
    setFlag f flag b < 256 := by
  cases b with
  | true =>
    simp only [setFlag, if_pos]
    have h256 : (256 : Nat) = 2 ^ 8 := by norm_num
    rw [h256] at hf hfl ⊢
    exact Nat.or_lt_two_pow hf hfl
  | false =>
    simp only [setFlag]
    rw [if_neg (by simp)]
    exact Nat.lt_of_le_of_lt (Nat.and_le_left) hf

theorem StoredData.flags_setFlags (d : StoredData) (f : Nat) : (d.setFlags f).flags = f := by
  cases d <;> rfl

theorem StoredData.broadcastFlag_setFlags (d : StoredData) (f : Nat) :
    (d.setFlags f).broadcastFlag = getFlag f RequestFlagsBroadcast := by
  cases d <;> rfl

theorem isIdentityData_setFlags (d : StoredData) (f : Nat) :
    SigningRequest.isIdentityData (d.setFlags f) = SigningRequest.isIdentityData d := by
  cases d <;> rfl

theorem wfStoredData_setFlags (d : StoredData) (h : wfStoredData d) (f : Nat)
    (hf : f < 256) : wfStoredData (d.setFlags f) := by
  cases d with
  | v2 dd => exact ⟨h.1, h.2.1, hf, h.2.2.2.1, h.2.2.2.2⟩
  | v3 dd => exact ⟨h.1, h.2.1, hf, h.2.2.2.1, h.2.2.2.2⟩

theorem encodeBytes_none_isOk (r : SigningRequest) (zlib : Option ZlibProvider) :
    ∃ out, r.encodeBytes zlib none = .ok out := by
  cases zlib with
  | none => exact ⟨_, rfl⟩
  | some z =>
    simp only [SigningRequest.encodeBytes, Option.getD_none, Option.isSome_some]
    split
    · exact ⟨_, rfl⟩
    · exact ⟨_, rfl⟩

theorem SigningRequest.version_lt_128 (r : SigningRequest) : r.version < 128 := by
  rcases r with ⟨d, sig⟩
  cases d <;> simp [SigningRequest.version, StoredData.version]

theorem encodeBytes_wf (r : SigningRequest) (hd : wfStoredData r.data)
    (hs : wfOptRequestSignature r.signature) (zlib : Option ZlibProvider)
    (hz : ZlibOk zlib) (compress : Option Bool) (out : List Nat)
    (henc : r.encodeBytes zlib compress = .ok out) : wfBytes out := by
  have harr : wfBytes (r.getData ++ r.getSignatureData) :=
    wfBytes_append (StoredData.enc_wf r.data hd) (getSignatureData_wf r hs)
  have hv : r.version < 128 := r.version_lt_128
  have hplain : wfBytes (r.version :: (r.getData ++ r.getSignatureData)) := by
    intro b hb
    rcases List.mem_cons.mp hb with rfl | hb
    · omega
    · exact harr b hb
  cases zlib with
  | none =>
    rcases hcd : compress.getD false with _ | _ <;>
      simp only [SigningRequest.encodeBytes, Option.isSome_none, hcd] at henc
    · cases henc
      exact hplain
    · cases henc
  | some z =>
    rcases hcd : compress.getD true with _ | _ <;>
      simp only [SigningRequest.encodeBytes, Option.isSome_some, hcd] at henc
    · cases henc
      exact hplain
    · split at henc
      · cases henc
        intro b hb
        rcases List.mem_cons.mp hb with rfl | hb
        · have : r.version ||| 128 < 256 := by
            have h256 : (256 : Nat) = 2 ^ 8 := by norm_num
            rw [h256]
            exact Nat.or_lt_two_pow (by omega) (by omega)
          omega
        · exact (hz _ harr).2 b hb
      · cases henc
        exact hplain

/-! ## Placeholder-elimination lemmas (for resolveActions) -/

mutual

theorem resolveValue_noPh (sg : PermissionLevel)
    (h1 : sg.actor ≠ PlaceholderName) (h2 : sg.actor ≠ PlaceholderPermission)
    (h3 : sg.permission ≠ PlaceholderName) (h4 : sg.permission ≠ PlaceholderPermission) :
    ∀ v : AbiValue, hasPlaceholder (resolveValue sg v) = false
  | .name n => by
    simp only [resolveValue]
    split_ifs with hn1 hn2
    · simp only [hasPlaceholder, Bool.or_eq_false_iff, beq_eq_false_iff_ne, ne_eq]
      exact ⟨h1, h2⟩
    · simp only [hasPlaceholder, Bool.or_eq_false_iff, beq_eq_false_iff_ne, ne_eq]
      exact ⟨h3, h4⟩
    · simp only [hasPlaceholder, Bool.or_eq_false_iff, beq_eq_false_iff_ne, ne_eq]
      exact ⟨hn1, hn2⟩
  | .str s => rfl
  | .num i => rfl
  | .boolean b => rfl
  | .arr xs => by
    simp only [resolveValue, hasPlaceholder]
    exact resolveValueList_noPh sg h1 h2 h3 h4 xs
  | .record fs => by
    simp only [resolveValue, hasPlaceholder]
    exact resolveValueFields_noPh sg h1 h2 h3 h4 fs

theorem resolveValueList_noPh (sg : PermissionLevel)
    (h1 : sg.actor ≠ PlaceholderName) (h2 : sg.actor ≠ PlaceholderPermission)
    (h3 : sg.permission ≠ PlaceholderName) (h4 : sg.permission ≠ PlaceholderPermission) :
    ∀ xs : AbiList, hasPlaceholderList (resolveValueList sg xs) = false
  | .nil => rfl
  | .cons x xs => by
    simp only [resolveValueList, hasPlaceholderList, Bool.or_eq_false_iff]
    exact ⟨resolveValue_noPh sg h1 h2 h3 h4 x, resolveValueList_noPh sg h1 h2 h3 h4 xs⟩

theorem resolveValueFields_noPh (sg : PermissionLevel)
    (h1 : sg.actor ≠ PlaceholderName) (h2 : sg.actor ≠ PlaceholderPermission)
    (h3 : sg.permission ≠ PlaceholderName) (h4 : sg.permission ≠ PlaceholderPermission) :
    ∀ fs : AbiFields, hasPlaceholderFields (resolveValueFields sg fs) = false
  | .nil => rfl
  | .cons k x fs => by
    simp only [resolveValueFields, hasPlaceholderFields, Bool.or_eq_false_iff]
    exact ⟨resolveValue_noPh sg h1 h2 h3 h4 x, resolveValueFields_noPh sg h1 h2 h3 h4 fs⟩

end

theorem resolveAuth_noPh (sg : PermissionLevel)
    (h1 : sg.actor ≠ PlaceholderName) (h3 : sg.permission ≠ PlaceholderName)
    (h4 : sg.permission ≠ PlaceholderPermission) (au : PermissionLevel) :
    (resolveAuth sg au).actor ≠ PlaceholderName ∧
    (resolveAuth sg au).permission ≠ PlaceholderName ∧
    (resolveAuth sg au).permission ≠ PlaceholderPermission := by
  simp only [resolveAuth, PlaceholderName, PlaceholderPermission] at *
  split_ifs <;> refine ⟨?_, ?_, ?_⟩ <;> simp_all

theorem resolveAuth_subst (sg au : PermissionLevel)
    (hs : sg.permission ≠ PlaceholderName) :
    (au.actor = PlaceholderName → (resolveAuth sg au).actor = sg.actor) ∧
    (au.actor ≠ PlaceholderName → (resolveAuth sg au).actor = au.actor) ∧
    (au.permission = PlaceholderPermission → (resolveAuth sg au).permission = sg.permission) ∧
    (au.permission = PlaceholderName → (resolveAuth sg au).permission = sg.permission) := by
  simp only [resolveAuth, PlaceholderName, PlaceholderPermission] at *
  refine ⟨?_, ?_, ?_, ?_⟩ <;> intro h <;> split_ifs <;> simp_all

/-! ## Claims -/

/-- C10: `base64u.decode` is total and non-validating: for every input string
of length `m` it returns exactly `⌊3m/4⌋` bytes (never raising an error — it
is a total function), and any character outside the two accepted base64
alphabets (including char codes past the lookup table) contributes the 6-bit
value 0, the same as the letter `A`: replacing it by `A` leaves the decoded
bytes unchanged. -/
theorem claim_c10_base64u_decode (s : List Nat) (i : Nat)
    (hjunk : isB64char (s.getD i 0) = false) :
    (b64decode s).length = 3 * s.length / 4 ∧ b64decode (s.set i 65) = b64decode s :=
  ⟨b64decode_length s, b64decode_junk_as_A s i hjunk⟩

theorem claim_c10_witness :
    (b64decode [65, 36, 67, 68]).length = 3 * ([65, 36, 67, 68] : List Nat).length / 4 ∧
    b64decode (([65, 36, 67, 68] : List Nat).set 1 65) = b64decode [65, 36, 67, 68] :=
  claim_c10_base64u_decode [65, 36, 67, 68] 1 (by decide)

/-- C5: when `encode` runs with a compressor available (and compression not
explicitly disabled), the frame carries the deflated body with the top header
bit set exactly when the deflated body is strictly smaller than the
uncompressed payload-plus-signature bytes; otherwise the uncompressed bytes
are emitted and the top bit of the header byte stays zero. -/
theorem claim_c5_compression_strictly_smaller (r : SigningRequest) (z : ZlibProvider) :
    ((z.deflateRaw (r.getData ++ r.getSignatureData)).length <
        (r.getData ++ r.getSignatureData).length →
      r.encodeBytes (some z) none =
        .ok ((r.version ||| 128) :: z.deflateRaw (r.getData ++ r.getSignatureData)) ∧
      128 ≤ r.version ||| 128) ∧
    (¬(z.deflateRaw (r.getData ++ r.getSignatureData)).length <
        (r.getData ++ r.getSignatureData).length →
      r.encodeBytes (some z) none = .ok (r.version :: (r.getData ++ r.getSignatureData)) ∧
      r.version < 128) := by
  constructor
  · intro h
    constructor
    · simp only [SigningRequest.encodeBytes, Option.getD_none, Option.isSome_some]
      rw [if_pos h]
    · rcases r with ⟨d, sig⟩
      cases d <;> simp only [SigningRequest.version, StoredData.version] <;> decide
  · intro h
    constructor
    · simp only [SigningRequest.encodeBytes, Option.getD_none, Option.isSome_some]
      rw [if_neg h]
    · exact SigningRequest.version_lt_128 _

theorem claim_c5_witness :
    sampleRequest.encodeBytes (some zlibShrink) none =
      .ok ((sampleRequest.version ||| 128) ::
        zlibShrink.deflateRaw (sampleRequest.getData ++ sampleRequest.getSignatureData)) ∧
    128 ≤ sampleRequest.version ||| 128 :=
  (claim_c5_compression_strictly_smaller sampleRequest zlibShrink).1 (by decide)

/-- C8: an identity proof whose signature recovers (over the proof's synthetic
identity transaction digest) to a key the authority accepts at its threshold
verifies exactly at times strictly before the expiration: `verify` returns
true for `now < expiration` and false for `now ≥ expiration`. -/
theorem claim_c8_identity_proof_verify (recoverDigest : Signature → Nat → Nat)
    (signingDigest : List Nat → Transaction → Nat) (p : IdentityProof)
    (auth : Authority) (now : Nat)
    (haccept : auth.hasPermission
      (recoverDigest p.signature (signingDigest p.chainId p.transaction)) = true) :
    (now < p.expiration →
      IdentityProof.verify recoverDigest signingDigest p auth now = true) ∧
    (p.expiration ≤ now →
      IdentityProof.verify recoverDigest signingDigest p auth now = false) := by
  unfold IdentityProof.verify
  rw [haccept]
  constructor
  · intro h
    simp only [Bool.and_true, decide_eq_true_eq]
    omega
  · intro h
    simp only [Bool.and_true, decide_eq_false_iff_not]
    omega

theorem claim_c8_witness :
    IdentityProof.verify (fun _ _ => 7) (fun _ _ => 0) proofFixture ⟨1, [⟨7, 1⟩]⟩ 9 = true ∧
    IdentityProof.verify (fun _ _ => 7) (fun _ _ => 0) proofFixture ⟨1, [⟨7, 1⟩]⟩ 10 = false :=
  ⟨(claim_c8_identity_proof_verify (fun _ _ => 7) (fun _ _ => 0) proofFixture ⟨1, [⟨7, 1⟩]⟩ 9
      (by decide)).1 (by decide),
    (claim_c8_identity_proof_verify (fun _ _ => 7) (fun _ _ => 0) proofFixture ⟨1, [⟨7, 1⟩]⟩ 10
      (by decide)).2 (by decide)⟩

theorem claim_c6_counterexample :
    resolvedNoCallback.getCallback cbEnv0 none [] none = .ok none ∧
    resolvedNoCallback.getCallback cbEnv0 none [] none ≠
      .error Err.needSignature := by
  refine ⟨rfl, fun h => ?_⟩
  rw [show resolvedNoCallback.getCallback cbEnv0 none [] none = .ok none from rfl] at h
  exact Except.noConfusion h

/-- C6 (amended): for every resolved request whose callback string is
nonempty, `getCallback` with an empty signature list fails with
`NeedSignature` (with an empty callback it returns `null` first). -/
theorem claim_c6_amended (R : ResolvedSigningRequest) (env : CallbackEnv)
    (zlib : Option ZlibProvider) (bn : Option Nat)
    (hcb : R.request.data.callback ≠ []) :
    R.getCallback env zlib [] bn = .error .needSignature := by
  unfold ResolvedSigningRequest.getCallback
  rw [if_neg (by simpa using hcb)]

theorem claim_c6_witness :
    resolvedWithCallback.getCallback cbEnv0 none [] none = .error .needSignature :=
  claim_c6_amended resolvedWithCallback cbEnv0 none none (by decide)

/-- C4 counterexample: an authorization whose actor slot holds placeholder-2
(`............2`) survives `resolveActions` untouched even with a concrete
signer `{actor: 10, permission: 11}` — a placeholder name remains in the
action authorizations, contradicting the claim; and with a placeholder-valued
signer `{actor: ph1, permission: ph2}` the substitution itself reintroduces
placeholders into the resolved output. -/
theorem claim_c4_counterexample :
    (resolveActions (some ⟨10, 11⟩)
        [⟨500, 600, [⟨PlaceholderPermission, 5⟩], .name 7⟩] =
      [⟨500, 600, [⟨PlaceholderPermission, 5⟩], .name 7⟩]) ∧
    (resolveActions (some ⟨PlaceholderName, PlaceholderPermission⟩)
        [⟨500, 600, [⟨PlaceholderName, PlaceholderName⟩], .name PlaceholderName⟩] =
      [⟨500, 600, [⟨PlaceholderName, PlaceholderPermission⟩],
          .name PlaceholderName⟩]) := ⟨rfl, rfl⟩

/-- C4 (amended): for every request and every signer whose actor and
permission are not themselves placeholder names, after `resolveActions` no
placeholder-1 remains anywhere (decoded data, visited recursively through
arrays and records, or authorizations) and no placeholder-2 remains in the
decoded data or in authorization permission slots; in an authorization the
actor placeholder becomes the signer actor, the permission placeholder the
signer permission, and a placeholder-1 in the permission slot also becomes
the signer permission — but the actor slot only substitutes placeholder-1, so
a placeholder-2 there is left unchanged (hence a non-placeholder actor slot
passes through verbatim). -/
theorem claim_c4_amended (sg : PermissionLevel) (acts : List ResolvedAction)
    (ha : sg.actor ≠ PlaceholderName ∧ sg.actor ≠ PlaceholderPermission)
    (hp : sg.permission ≠ PlaceholderName ∧ sg.permission ≠ PlaceholderPermission) :
    (∀ a ∈ resolveActions (some sg) acts,
      hasPlaceholder a.data = false ∧
      ∀ au ∈ a.authorization,
        au.actor ≠ PlaceholderName ∧ au.permission ≠ PlaceholderName ∧
          au.permission ≠ PlaceholderPermission) ∧
    ∀ i (hi : i < acts.length) (hi2 : i < (resolveActions (some sg) acts).length),
      hasPlaceholder ((resolveActions (some sg) acts)[i]).data = false ∧
      ∀ j (hj : j < acts[i].authorization.length)
        (hj2 : j < ((resolveActions (some sg) acts)[i]).authorization.length),
        (acts[i].authorization[j].actor = PlaceholderName →
          ((resolveActions (some sg) acts)[i]).authorization[j].actor = sg.actor) ∧
        (acts[i].authorization[j].actor ≠ PlaceholderName →
          ((resolveActions (some sg) acts)[i]).authorization[j].actor =
            acts[i].authorization[j].actor) ∧
        (acts[i].authorization[j].permission = PlaceholderPermission →
          ((resolveActions (some sg) acts)[i]).authorization[j].permission =
            sg.permission) ∧
        (acts[i].authorization[j].permission = PlaceholderName →
          ((resolveActions (some sg) acts)[i]).authorization[j].permission =
            sg.permission) := by
  refine ⟨?_, ?_⟩
  · intro a hmem
    simp only [resolveActions, List.mem_map] at hmem
    obtain ⟨a0, _, rfl⟩ := hmem
    refine ⟨resolveValue_noPh sg ha.1 ha.2 hp.1 hp.2 a0.data, ?_⟩
    intro au hau
    simp only [List.mem_map] at hau
    obtain ⟨au0, _, rfl⟩ := hau
    exact resolveAuth_noPh sg ha.1 hp.1 hp.2 au0
  · intro i hi hi2
    simp only [resolveActions, List.getElem_map]
    refine ⟨resolveValue_noPh sg ha.1 ha.2 hp.1 hp.2 _, ?_⟩
    intro j hj hj2
    exact resolveAuth_subst sg (acts[i].authorization[j]) hp.1

theorem claim_c4_witness :
    hasPlaceholder ((resolveActions (some ⟨10, 11⟩)
        [⟨7, 8, [⟨PlaceholderName, PlaceholderName⟩], .name PlaceholderName⟩]).get
        ⟨0, by decide⟩).data = false ∧
    (((resolveActions (some ⟨10, 11⟩)
        [⟨7, 8, [⟨PlaceholderName, PlaceholderName⟩], .name PlaceholderName⟩]).get
        ⟨0, by decide⟩).authorization.get ⟨0, by decide⟩).actor = 10 ∧
    (((resolveActions (some ⟨10, 11⟩)
        [⟨7, 8, [⟨PlaceholderName, PlaceholderName⟩], .name PlaceholderName⟩]).get
        ⟨0, by decide⟩).authorization.get ⟨0, by decide⟩).permission = 11 := by
  have h := claim_c4_amended ⟨10, 11⟩
    [⟨7, 8, [⟨PlaceholderName, PlaceholderName⟩], .name PlaceholderName⟩]
    ⟨by decide, by decide⟩ ⟨by decide, by decide⟩
  have h2 := h.2 0 (by decide) (by decide)
  have h3 := h2.2 0 (by decide) (by decide)
  exact ⟨h2.1, h3.1 (by decide), h3.2.2.2 (by decide)⟩

/-- C3: for every non-identity request whose raw transaction has the null
header, `resolveTransaction` fills the header (a) verbatim from
`ctx.expiration` / `ctx.ref_block_num` / `ctx.ref_block_prefix` when all three
are present (`ref_block_num` being a `UInt16`, i.e. below `2^16`), else
(b) when `ctx.block_num`, `ctx.ref_block_prefix` and `ctx.timestamp` are
present, with `expiration = timestamp + expire_seconds` (default 60, `UInt32`
addition), `ref_block_num = block_num mod 2^16`, `ref_block_prefix` passed
through; with neither set of context values it fails with `MissingTaPoS`. -/
theorem claim_c3_resolve_tapos (r : SigningRequest) (ctx : TransactionContext)
    (now : Nat) (hni : r.isIdentity = false)
    (hnull : hasTapos r.getRawTransaction = false) :
    (∀ e rbn rbp, ctx.expiration = some e → ctx.ref_block_num = some rbn →
      ctx.ref_block_prefix = some rbp → rbn < 2 ^ 16 →
      r.resolveTransaction ctx now =
        .ok {r.getRawTransaction with
          expiration := e, ref_block_num := rbn, ref_block_prefix := rbp}) ∧
    (∀ bn rbp ts, (ctx.expiration = none ∨ ctx.ref_block_num = none) →
      ctx.block_num = some bn → ctx.ref_block_prefix = some rbp →
      ctx.timestamp = some ts → ts + ctx.expire_seconds.getD 60 < 2 ^ 32 →
      r.resolveTransaction ctx now =
        .ok {r.getRawTransaction with
          expiration := ts + ctx.expire_seconds.getD 60,
          ref_block_num := bn % 2 ^ 16, ref_block_prefix := rbp}) ∧
    (¬(ctx.expiration.isSome ∧ ctx.ref_block_num.isSome ∧ ctx.ref_block_prefix.isSome) →
      ¬(ctx.block_num.isSome ∧ ctx.ref_block_prefix.isSome ∧ ctx.timestamp.isSome) →
      r.resolveTransaction ctx now = .error .missingTapos) := by
  refine ⟨?_, ?_, ?_⟩
  · intro e rbn rbp he hrbn hrbp hlt
    unfold SigningRequest.resolveTransaction
    rw [if_pos ⟨hni, hnull⟩, if_pos ⟨by simp [he], by simp [hrbn], by simp [hrbp]⟩]
    simp only [he, hrbn, hrbp, Option.getD_some]
    rw [Nat.mod_eq_of_lt hlt]
  · intro bn rbp ts hna hbn hrbp hts hlt
    unfold SigningRequest.resolveTransaction
    rw [if_pos ⟨hni, hnull⟩]
    rw [if_neg (by rcases hna with h | h <;> simp [h])]
    rw [if_pos ⟨by simp [hbn], by simp [hrbp], by simp [hts]⟩]
    simp only [hbn, hrbp, hts, Option.getD_some, expirationTime]
    rw [Nat.mod_eq_of_lt hlt]
  · intro hna hnb
    unfold SigningRequest.resolveTransaction
    rw [if_pos ⟨hni, hnull⟩, if_neg hna, if_neg (fun h => hnb ⟨h.1, h.2.1, h.2.2⟩)]

theorem claim_c3_witness :
    sampleRequest.resolveTransaction
        ⟨none, none, none, some 7, some 9, some 5, none⟩ 0 =
      .ok {sampleRequest.getRawTransaction with
        expiration := 5, ref_block_num := 7, ref_block_prefix := 9} ∧
    sampleRequest.resolveTransaction
        ⟨some 100, some 2, some 70000, none, some 9, none, none⟩ 0 =
      .ok {sampleRequest.getRawTransaction with
        expiration := 102, ref_block_num := 70000 % 2 ^ 16, ref_block_prefix := 9} ∧
    sampleRequest.resolveTransaction TransactionContext.empty 0 =
      .error .missingTapos := by
  have h5 := claim_c3_resolve_tapos sampleRequest
    ⟨none, none, none, some 7, some 9, some 5, none⟩ 0 (by decide) (by decide)
  have h6 := claim_c3_resolve_tapos sampleRequest
    ⟨some 100, some 2, some 70000, none, some 9, none, none⟩ 0 (by decide) (by decide)
  have h7 := claim_c3_resolve_tapos sampleRequest TransactionContext.empty 0
    (by decide) (by decide)
  refine ⟨h5.1 5 7 9 rfl rfl rfl (by decide), ?_, h7.2.2 (by decide) (by decide)⟩
  have := h6.2.1 70000 9 100 (Or.inl rfl) rfl rfl rfl (by decide)
  simpa using this

/-- C1: for every well-formed request, decoding the encoded frame (`fromData`)
or the encoded URI (`from`) yields a request structurally equal to the
original — same version/storage payload (chain id variant, body variant, flag
byte, callback, info pairs) and signature — both without a compressor and
with any compressor satisfying the zlib contract. -/
theorem claim_c1_encode_decode_roundtrip (r : SigningRequest)
    (zlib : Option ZlibProvider) (hwf : wfSigningRequest r) (hz : ZlibOk zlib) :
    (r.encodeBytes zlib none).bind (SigningRequest.fromData zlib) = .ok r ∧
    (r.encodeUri zlib none none schemeEsr).bind (SigningRequest.fromUri zlib) = .ok r := by
  obtain ⟨out, hE⟩ := encodeBytes_none_isOk r zlib
  have hfd : SigningRequest.fromData zlib out = .ok r := by
    rw [fromData_encodeBytes r hwf.1 hwf.2.1 zlib hz none out hE]
    exact mkSigningRequest_ok r hwf.2.2
  have hout : wfBytes out := encodeBytes_wf r hwf.1 hwf.2.1 zlib hz none out hE
  constructor
  · rw [hE]
    simpa [Except.bind] using hfd
  · have hu : r.encodeUri zlib none none schemeEsr =
        .ok ((schemeEsr ++ [47, 47]) ++ b64encode true out) := by
      simp [SigningRequest.encodeUri, hE]
    rw [hu]
    have hshape : (schemeEsr ++ [47, 47]) ++ b64encode true out =
        [101, 115, 114] ++ (58 :: (47 :: 47 :: b64encode true out)) := by
      simp [schemeEsr]
    simp only [Except.bind]
    rw [hshape, fromUri_frame zlib [101, 115, 114] out (by decide) hout]
    exact hfd

theorem claim_c1_witness :
    (sampleRequest.encodeBytes none none).bind (SigningRequest.fromData none) =
      .ok sampleRequest ∧
    (sampleRequest.encodeUri none none none schemeEsr).bind
        (SigningRequest.fromUri none) = .ok sampleRequest :=
  claim_c1_encode_decode_roundtrip sampleRequest none (by decide) trivial

/-- C7 counterexample: a URI with the scheme `foo:` — not one of the accepted
schemes — decodes successfully to the original request instead of failing
with an `InvalidScheme` error (no such error exists in the decoder: `from`
never inspects the scheme). -/
theorem claim_c7_counterexample :
    SigningRequest.fromUri none
        ([102, 111, 111, 58, 47, 47] ++ b64encode true (2 :: sampleRequest.getData)) =
      .ok sampleRequest := by decide

theorem b64charAt_true_ne_slash (k : Nat) : b64charAt true k ≠ 47 := by
  rcases Nat.lt_or_ge k 64 with h | h
  · have hall : ((List.range 64).all fun k => b64charAt true k != 47) = true := by decide
    have h' := List.all_eq_true.mp hall k (List.mem_range.mpr h)
    simpa using h'
  · have hlen : (b64charset true).length = 64 := by decide
    unfold b64charAt
    rw [List.getD_eq_default _ _ (by omega)]
    omega

theorem b64encode_true_ne_slash (b : List Nat) : ∀ c ∈ b64encode true b, c ≠ 47 := by
  intro c hc
  obtain ⟨k, rfl⟩ := mem_b64encode true b c hc
  exact b64charAt_true_ne_slash k

theorem b64encode_ne_nil (u : Bool) (b : List Nat) (h : b ≠ []) : b64encode u b ≠ [] := by
  match b with
  | [] => exact absurd rfl h
  | [b0] => simp [b64encode]
  | [b0, b1] => simp [b64encode]
  | b0 :: b1 :: b2 :: rest => simp [b64encode]

theorem encodeBytes_ne_nil (r : SigningRequest) (zlib : Option ZlibProvider)
    (compress : Option Bool) (out : List Nat)
    (henc : r.encodeBytes zlib compress = .ok out) : out ≠ [] := by
  cases zlib with
  | none =>
    rcases hcd : compress.getD false with _ | _ <;>
      simp only [SigningRequest.encodeBytes, Option.isSome_none, hcd] at henc
    · cases henc
      simp
    · cases henc
  | some z =>
    rcases hcd : compress.getD true with _ | _ <;>
      simp only [SigningRequest.encodeBytes, Option.isSome_some, hcd] at henc
    · cases henc
      simp
    · split at henc <;> cases henc <;> simp

/-- C7 (amended): decoding accepts `esr:` and `web+esr:` with or without the
`//`, but performs no scheme validation at all: for every colon-free scheme
prefix — accepted or not — `from` decodes the text after the first colon and
yields the original request; no `InvalidScheme` failure exists. -/
theorem claim_c7_amended (r : SigningRequest) (zlib : Option ZlibProvider)
    (hwf : wfSigningRequest r) (hz : ZlibOk zlib) (scheme0 : List Nat)
    (h58 : ∀ c ∈ scheme0, c ≠ 58) (out : List Nat)
    (henc : r.encodeBytes zlib none = .ok out) :
    SigningRequest.fromUri zlib (scheme0 ++ (58 :: (47 :: 47 :: b64encode true out))) =
      .ok r ∧
    SigningRequest.fromUri zlib (scheme0 ++ (58 :: b64encode true out)) = .ok r := by
  have hout : wfBytes out := encodeBytes_wf r hwf.1 hwf.2.1 zlib hz none out henc
  have hfd : SigningRequest.fromData zlib out = .ok r := by
    rw [fromData_encodeBytes r hwf.1 hwf.2.1 zlib hz none out henc]
    exact mkSigningRequest_ok r hwf.2.2
  constructor
  · rw [fromUri_frame zlib scheme0 out h58 hout]
    exact hfd
  · have hne : b64encode true out ≠ [] :=
      b64encode_ne_nil true out (encodeBytes_ne_nil r zlib none out henc)
    have htw : ((b64encode true out).takeWhile fun x => x != 58) = b64encode true out :=
      takeWhile_ne_colon _ (b64encode_ne_colon true out)
    simp only [SigningRequest.fromUri, afterFirstColon_append _ _ h58, htw]
    split
    · rename_i t heq
      have h47 : (47 : Nat) ∈ b64encode true out := by rw [heq]; simp
      exact absurd rfl (b64encode_true_ne_slash out 47 h47)
    · rw [b64decode_encode true out hout]
      exact hfd

theorem claim_c7_witness :
    SigningRequest.fromUri none
        ([119, 101, 98, 43, 101, 115, 114] ++
          (58 :: (47 :: 47 :: b64encode true (2 :: sampleRequest.getData)))) =
      .ok sampleRequest ∧
    SigningRequest.fromUri none
        ([119, 101, 98, 43, 101, 115, 114] ++
          (58 :: b64encode true (2 :: sampleRequest.getData))) = .ok sampleRequest := by
  have henc : sampleRequest.encodeBytes none none = .ok (2 :: sampleRequest.getData) := by
    decide
  exact claim_c7_amended sampleRequest none (by decide) trivial
    [119, 101, 98, 43, 101, 115, 114] (by decide) (2 :: sampleRequest.getData) henc

/-- C2: every identity request reports `shouldBroadcast() = false`; building
an identity request with `broadcast: true` through `createSync` (on any
descriptor whose other stages succeed) fails with the identity-broadcast
error, and so does decoding a frame whose body is an identity variant with
the broadcast flag bit set. -/
theorem claim_c2_identity_broadcast :
    (∀ r : SigningRequest, r.isIdentity = true → r.shouldBroadcast = false) ∧
    (∀ (args : CreateArgs) (sel : ReqSel) (cid : ChainIdVariant) (extra : List InfoPair),
      args.identity.isSome = true → createSyncReq args = .ok sel →
      createSyncChain args = .ok cid → createSyncExtraInfo args = .ok extra →
      createSync {args with broadcast := some true} = .error .identityBroadcast) ∧
    (∀ (zlib : Option ZlibProvider) (d : StoredData), wfStoredData d →
      SigningRequest.isIdentityData d = true → d.broadcastFlag = true →
      SigningRequest.fromData zlib (d.version :: d.enc) = .error .identityBroadcast) := by
  refine ⟨?_, ?_, ?_⟩
  · intro r hid
    unfold SigningRequest.shouldBroadcast SigningRequest.isIdentity at *
    rw [if_pos hid]
  · intro args sel cid extra hid hreq hchain hextra
    obtain ⟨a1, a2, a3, a4, a5, a6, a7, a8, a9⟩ := args
    cases a4 with
    | none => simp at hid
    | some idArgs =>
      have hreq' :
          createSyncReq ⟨a1, a2, a3, some idArgs, a5, a6, some true, a8, a9⟩ = .ok sel :=
        hreq
      have hchain' :
          createSyncChain ⟨a1, a2, a3, some idArgs, a5, a6, some true, a8, a9⟩ = .ok cid :=
        hchain
      have hextra' : createSyncExtraInfo
          ⟨a1, a2, a3, some idArgs, a5, a6, some true, a8, a9⟩ = .ok extra :=
        hextra
      have hsel : sel.isIdentity = true := by
        simp only [createSyncReq] at hreq
        rcases hsc : idArgs.scope with _ | sc <;> rw [hsc] at hreq <;>
          by_cases h5 : a5 = ChainIdArg.nullChain <;> simp [h5] at hreq <;>
          first
            | (rw [← hreq]; rfl)
            | exact absurd hreq (by simp)
      show createSync ⟨a1, a2, a3, some idArgs, a5, a6, some true, a8, a9⟩ = _
      simp only [createSync, hreq', hchain', hextra']
      rcases sel with q | q <;> rcases q with a | acts | t | i <;>
        simp [ReqSel.isIdentity] at hsel <;>
        rcases a8 with _ | ⟨url⟩ | ⟨url, bg⟩ <;>
          simp [mkSigningRequest, StoredData.broadcastFlag, StoredData.flags,
            SigningRequest.isIdentityData, getFlag_setBroadcast_true,
            getFlag_broadcast_setBackground]
  · intro zlib d hd hidd hbc
    cases d with
    | v2 dd =>
      have hp : parseRequestData parseIdentityV2 (encRequestData encIdentityV2 dd) =
          some (dd, []) := by
        simpa using parseRequestData_enc parseIdentityV2 encIdentityV2 wfIdentityV2 dd hd
          (fun i hi r' => parseIdentityV2_enc i hi r') []
      simp only [SigningRequest.fromData, StoredData.version, StoredData.enc,
        List.headD_cons]
      norm_num
      simp only [List.drop_succ_cons, List.drop_zero, hp, Option.map_some']
      unfold mkSigningRequest
      rw [if_pos ⟨hbc, hidd⟩]
    | v3 dd =>
      have hp : parseRequestData parseIdentityV3 (encRequestData encIdentityV3 dd) =
          some (dd, []) := by
        simpa using parseRequestData_enc parseIdentityV3 encIdentityV3 wfIdentityV3 dd hd
          (fun i hi r' => parseIdentityV3_enc i hi r') []
      simp only [SigningRequest.fromData, StoredData.version, StoredData.enc,
        List.headD_cons]
      norm_num
      simp only [List.drop_succ_cons, List.drop_zero, hp, Option.map_some']
      unfold mkSigningRequest
      rw [if_pos ⟨hbc, hidd⟩]

/-- Witness for C2 at concrete inputs: a flags-0 identity request does not
broadcast; `createSync` on a plain identity descriptor with `broadcast: true`
errors; decoding a hand-crafted identity frame with the broadcast bit set
errors. -/
theorem claim_c2_witness :
    sampleIdentityRequest.shouldBroadcast = false ∧
    createSync {identityArgs0 with broadcast := some true} =
      .error .identityBroadcast ∧
    SigningRequest.fromData none (badIdentityData.version :: badIdentityData.enc) =
      .error .identityBroadcast :=
  ⟨claim_c2_identity_broadcast.1 sampleIdentityRequest (by decide),
   claim_c2_identity_broadcast.2.1 identityArgs0 (.v2 (.identity ⟨none⟩))
     (.chain_alias 1) [] (by decide) (by decide) (by decide) (by decide),
   claim_c2_identity_broadcast.2.2 none badIdentityData (by decide) (by decide)
     (by decide)⟩

theorem StoredData.flags_lt (d : StoredData) (h : wfStoredData d) : d.flags < 256 := by
  cases d <;> exact h.2.2.1

/-- C9: `setBroadcast(true)` on an identity request is a plain setter — it
never fails and sets bit 0 of the flag byte (the broadcast accessor now reads
true); afterwards `shouldBroadcast()` still answers false because the identity
test short-circuits it; but the mutated request's own encoded frame no longer
decodes: `fromData` rejects it with the identity-broadcast error. -/
theorem claim_c9_setBroadcast_identity (r : SigningRequest)
    (hd : wfStoredData r.data) (hs : wfOptRequestSignature r.signature)
    (hid : r.isIdentity = true)
    (zlib : Option ZlibProvider) (hz : ZlibOk zlib) (compress : Option Bool)
    (out : List Nat)
    (henc : (r.setBroadcast true).encodeBytes zlib compress = .ok out) :
    (r.setBroadcast true).data.broadcastFlag = true ∧
    (r.setBroadcast true).shouldBroadcast = false ∧
    SigningRequest.fromData zlib out = .error .identityBroadcast := by
  have hbc : (r.setBroadcast true).data.broadcastFlag = true := by
    show (r.data.setFlags (setFlag r.data.flags RequestFlagsBroadcast true)).broadcastFlag
      = true
    rw [StoredData.broadcastFlag_setFlags]
    exact getFlag_setBroadcast_true r.data.flags
  have hid' : SigningRequest.isIdentityData (r.setBroadcast true).data = true := by
    show SigningRequest.isIdentityData
      (r.data.setFlags (setFlag r.data.flags RequestFlagsBroadcast true)) = true
    rw [isIdentityData_setFlags]
    exact hid
  refine ⟨hbc, ?_, ?_⟩
  · unfold SigningRequest.shouldBroadcast SigningRequest.isIdentity
    rw [if_pos hid']
  · have hd' : wfStoredData (r.setBroadcast true).data :=
      wfStoredData_setFlags r.data hd _
        (setFlag_lt_256 r.data.flags RequestFlagsBroadcast
          (StoredData.flags_lt r.data hd) (by decide) true)
    have hrt := fromData_encodeBytes (r.setBroadcast true) hd' hs zlib hz compress out henc
    rw [hrt]
    unfold mkSigningRequest
    rw [if_pos ⟨hbc, hid'⟩]

/-- Witness for C9 at the sample identity request, without a compressor. -/
theorem claim_c9_witness :
    (sampleIdentityRequest.setBroadcast true).data.broadcastFlag = true ∧
    (sampleIdentityRequest.setBroadcast true).shouldBroadcast = false ∧
    SigningRequest.fromData none
      (2 :: (sampleIdentityRequest.setBroadcast true).getData) =
      .error .identityBroadcast :=
  claim_c9_setBroadcast_identity sampleIdentityRequest (by decide) trivial (by decide)
    none trivial none (2 :: (sampleIdentityRequest.setBroadcast true).getData)
    (by decide)

end ESR
